import Mathlib

/-!
Verification development for the coupon aggregation engine
(`src/coupon_engine/{validator,deduplicator,parser,scraper,rate_limiter,proxy_manager}.rs`).

Modelling conventions (shallow embedding of the Rust source):
* Rust `String`/`&str` values are modelled as `List Char`; string literals are
  written `"...".data`.  Lengths are character counts (the source applies its
  length checks to ASCII data on every path the claims touch, where byte and
  character counts coincide).
* Rust `f64` values are modelled as `ℚ` with the literal constants of the
  source; `Instant`/`DateTime<Utc>` are modelled as naturals (milliseconds)
  respectively integers (seconds since epoch).
* Fallible operations return `Option`/`Except`; `tokio::sync::Mutex`
  acquisition is modelled explicitly where lock state matters
  (`RateLimiter.wait_if_needed`), since a tokio mutex deadlocks when locked
  by a task that already holds it.
-/

open scoped List

/-- `DiscountType` from `mod.rs`. -/
inductive DiscountType where
  | Percentage
  | Fixed
  | FreeShipping
  | Bogo
  | CashBack
  | Points
  | Unknown
deriving DecidableEq, Repr

/-- `SourceType` from `mod.rs`. -/
inductive SourceType where
  | AffiliateApi
  | WebScraping
  | UserSubmitted
  | PartnerApi
deriving DecidableEq, Repr

/-- `serde_json::Value`: JSON trees carried in `RawCoupon.metadata` and fed to
the generic JSON parser.  Numbers are modelled as rationals. -/
inductive Json where
  | null
  | jbool (b : Bool)
  | num (q : ℚ)
  | jstr (s : List Char)
  | arr (xs : List Json)
  | obj (fields : List (List Char × Json))

/-- `RawCoupon` from `mod.rs`. -/
structure RawCoupon where
  code : List Char
  title : List Char
  description : Option (List Char)
  discount_type : DiscountType
  discount_value : Option ℚ
  minimum_order : Option ℚ
  maximum_discount : Option ℚ
  valid_from : Option Int
  valid_until : Option Int
  merchant_name : List Char
  merchant_domain : List Char
  source_url : List Char
  source_type : SourceType
  metadata : Json
  scraped_at : Int

/-- ASCII uppercasing of one character (`char::to_uppercase`; the inputs the
engine uppercases are ASCII on every path the claims touch). -/
def asciiUpper (c : Char) : Char :=
  if 'a' ≤ c ∧ c ≤ 'z' then Char.ofNat (c.toNat - 32) else c

/-- `str::to_uppercase`. -/
def rustToUpper (s : List Char) : List Char := s.map asciiUpper

/-- Is `c` an uppercase Latin letter or an ASCII digit (the class `[A-Z0-9]`)? -/
def isUpperAlnum (c : Char) : Bool :=
  ('A' ≤ c ∧ c ≤ 'Z') ∨ ('0' ≤ c ∧ c ≤ '9')

/-- Is `c` a letter/digit in the sense of the domain regex class `[a-zA-Z0-9]`? -/
def isAlnumAscii (c : Char) : Bool :=
  ('a' ≤ c ∧ c ≤ 'z') ∨ ('A' ≤ c ∧ c ≤ 'Z') ∨ ('0' ≤ c ∧ c ≤ '9')

/-- Substring containment, `str::contains(&str)`. -/
def containsSub (haystack needle : List Char) : Bool :=
  decide (needle <:+: haystack)

namespace Validator

/-- The language of `VALID_CODE_PATTERN = ^[A-Z0-9]{3,50}$` (anchored full
match: 3 to 50 characters, each in `[A-Z0-9]`). -/
def matchesCodePattern (code : List Char) : Bool :=
  3 ≤ code.length ∧ code.length ≤ 50 ∧ code.all isUpperAlnum

/-- `SPAM_KEYWORDS` from `validator.rs`. -/
def spamKeywords : List (List Char) :=
  ["TEST".data, "DEMO".data, "EXAMPLE".data, "FAKE".data, "INVALID".data]

/-- `Validator::has_repetitive_pattern`.  The `(4..len).step_by(2)` loop checks
`chars[i] == chars[0]` for even `i` and `chars[i+1] == chars[1]` for the odd
successor, i.e. every position `j ∈ [4, len)` against `chars[j % 2]`. -/
def has_repetitive_pattern (code : List Char) : Bool :=
  if code.length < 4 then false
  else
    let first := code.headD 'A'
    if code.all (· = first) then true
    else
      if 4 ≤ code.length ∧ code.getD 0 'A' = code.getD 2 'A' ∧
          code.getD 1 'A' = code.getD 3 'A' ∧
          (List.range' 4 (code.length - 4)).all
            (fun i => code.getD i 'A' = code.getD (i % 2) 'A') then
        true
      else false

/-- `Validator::validate_code`. -/
def validate_code (code : List Char) : Bool :=
  if ¬ matchesCodePattern code then false
  else
    let code_upper := rustToUpper code
    if spamKeywords.any (fun kw => containsSub code_upper kw) then false
    else if has_repetitive_pattern code then false
    else true

/-- `Validator::validate_discount` (field values `min_discount_value = 1.0`,
`max_discount_percentage = 99.0` from `Validator::new`). -/
def validate_discount (discount_type : DiscountType) (value : Option ℚ) : Bool :=
  match discount_type with
  | .Percentage => match value with
    | some v => 1 ≤ v ∧ v ≤ 99
    | none => false
  | .Fixed => match value with
    | some v => 1 ≤ v ∧ v ≤ 10000
    | none => false
  | .FreeShipping => true
  | .Bogo => true
  | .CashBack => match value with
    | some v => 1 ≤ v ∧ v ≤ 100
    | none => false
  | .Points => match value with
    | some v => 1 ≤ v ∧ v ≤ 100000
    | none => false
  | .Unknown => false

/-- `chrono::Duration::num_days` on a duration of `d` seconds (truncation
toward zero, as for `i64` division). -/
def numDays (d : Int) : Int := d.tdiv 86400

/-- `Validator::validate_dates`, with `Utc::now()` passed explicitly
(`max_future_days = 365`). -/
def validate_dates (c : RawCoupon) (now : Int) : Bool :=
  let untilOk :=
    match c.valid_until with
    | some valid_until =>
        if valid_until < now then false
        else if numDays (valid_until - now) > 365 then false
        else true
    | none => true
  if !untilOk then false
  else
    match c.valid_from with
    | some valid_from =>
        if valid_from > now then false
        else
          match c.valid_until with
          | some valid_until => if valid_from ≥ valid_until then false else true
          | none => true
    | none => true

/-- The language of the domain-label fragment
`[a-zA-Z0-9][a-zA-Z0-9-]{0,61}[a-zA-Z0-9]?`: 1 to 63 characters, first
alphanumeric, the rest alphanumeric or a hyphen, and a 63rd character (when
present) alphanumeric (with fewer than 63 characters the trailing optional
atom may be left empty, so a final hyphen is accepted by the regex). -/
def labelOk (lab : List Char) : Bool :=
  match lab with
  | [] => false
  | c :: rest =>
      isAlnumAscii c ∧ rest.length ≤ 62 ∧
      rest.all (fun d => isAlnumAscii d ∨ d = '-') ∧
      (rest.length ≤ 61 ∨ isAlnumAscii (rest.getLastD 'a'))

/-- Splits a character list at `sep`, keeping empty components
(`str::split`). -/
def splitOnChar (sep : Char) (s : List Char) : List (List Char) :=
  match s with
  | [] => [[]]
  | c :: rest =>
      let parts := splitOnChar sep rest
      if c = sep then [] :: parts
      else match parts with
        | [] => [[c]]
        | p :: ps => (c :: p) :: ps

/-- `Validator::is_valid_domain`: length in `[4, 253]` and a full match of
`^label(\.label)*$` where `label` is `labelOk` (the language of the source's
domain regex; empty labels, e.g. around a leading, trailing or doubled dot,
are rejected). -/
def is_valid_domain (domain : List Char) : Bool :=
  if domain.length < 4 ∨ domain.length > 253 then false
  else (splitOnChar '.' domain).all labelOk

/-- `Validator::validate_merchant`. -/
def validate_merchant (c : RawCoupon) : Bool :=
  if c.merchant_name.isEmpty ∨ c.merchant_name.length > 100 then false
  else if c.merchant_domain.isEmpty ∨ ¬ is_valid_domain c.merchant_domain then false
  else true

/-- `Validator::is_valid`, with `Utc::now()` passed explicitly. -/
def is_valid (c : RawCoupon) (now : Int) : Bool :=
  if ¬ validate_code c.code then false
  else if ¬ validate_discount c.discount_type c.discount_value then false
  else if ¬ validate_dates c now then false
  else if ¬ validate_merchant c then false
  else true

/-- `Modelled from the spec`'s words, for comparison with the source's
`has_repetitive_pattern`: repetitive means length at least 4 and either all
characters equal, or `chars[i] == chars[i mod 2]` at every position. -/
def repetitiveSpec (code : List Char) : Prop :=
  4 ≤ code.length ∧
    ((∀ c ∈ code, c = code.headD 'A') ∨
      ∀ i < code.length, code.getD i 'A' = code.getD (i % 2) 'A')

instance (code : List Char) : Decidable (repetitiveSpec code) := by
  unfold repetitiveSpec; infer_instance

end Validator

namespace F64

/-- `2^k` as a rational, for an integer exponent (kept in natural-number
powers so that it evaluates by kernel reduction). -/
def pow2 (k : Int) : ℚ :=
  if 0 ≤ k then ((2 ^ k.toNat : ℕ) : ℚ) else ((2 ^ (-k).toNat : ℕ) : ℚ)⁻¹

/-- `Nat.log2` with explicit fuel, making the recursion structural so that it
evaluates by kernel reduction (`Nat.log2` itself is defined by well-founded
recursion and does not reduce).  `fuel = n` always suffices. -/
def natLog2F : Nat → Nat → Nat
  | 0, _ => 0
  | fuel + 1, n => if 2 ≤ n then natLog2F fuel (n / 2) + 1 else 0

/-- `Nat.log2`, computably: see `F64_natLog2_eq`. -/
def natLog2 (n : Nat) : Nat := natLog2F n n

/-- Floor of the base-2 logarithm of a positive rational, computed from the
base-2 logarithms of the numerator and denominator (each is bracketed within
one binade, and the comparison picks the right candidate). -/
def floorLog2 (q : ℚ) : Int :=
  let a : Int := (natLog2 q.num.toNat : Int)
  let b : Int := (natLog2 q.den : Int)
  if pow2 (a - b) ≤ q then a - b else a - b - 1

/-- Nearest natural number to a non-negative rational, ties to even. -/
def roundPosInt (x : ℚ) : Nat :=
  let n := x.num.toNat
  let d := x.den
  if 2 * (n % d) < d then n / d
  else if 2 * (n % d) > d then n / d + 1
  else if n / d % 2 = 0 then n / d else n / d + 1

/-- Round a positive rational to 53 significant bits, to nearest with ties to
even: the scaled significand `q · 2^(52−e)` lies in `[2^52, 2^53)` and is
rounded to an integer. -/
def roundPos (q : ℚ) : ℚ :=
  let e := floorLog2 q
  (roundPosInt (q * pow2 (52 - e)) : ℚ) * pow2 (e - 52)

/-- IEEE-754 `f64` rounding (round to nearest, ties to even), on exact
rationals with an unbounded exponent: this agrees with hardware doubles
throughout the normal range — every value the engine's similarity arithmetic
produces — and omits only overflow to infinity and subnormal underflow. -/
def round (q : ℚ) : ℚ :=
  if q = 0 then 0 else if 0 < q then roundPos q else -roundPos (-q)

/-- `f64` addition: exact sum, then one rounding. -/
def add (x y : ℚ) : ℚ := round (x + y)

/-- `f64` subtraction. -/
def sub (x y : ℚ) : ℚ := round (x - y)

/-- `f64` multiplication. -/
def mul (x y : ℚ) : ℚ := round (x * y)

/-- `f64` division. -/
def div (x y : ℚ) : ℚ := round (x / y)

/-- `usize as f64`. -/
def ofNat (n : Nat) : ℚ := round n

end F64

namespace Deduplicator

/-- `Deduplicator::levenshtein_distance`, matrix step count as fuel.  The
source fills the classic DP matrix `D(i, j)` with `D(i, 0) = i`,
`D(0, j) = j` and
`D(i+1, j+1) = min (D(i,j) + cost) (min (D(i+1,j) + 1) (D(i,j+1) + 1))`
and returns `D(len1, len2)`; `levF` computes the same recurrence
structurally (peeling characters), with a fuel argument making the
definition structural.  `fuel = len s1 + len s2` always suffices.

Caveat: the source sizes the matrix by *byte* lengths (`s1.len()`) but fills
it by iterating `chars()`, so when an input contains multi-byte characters
the returned corner cell `D(len1, len2)` lies beyond the filled region and
keeps its `0` initialisation.  This model is the character-level recurrence,
which coincides with the source exactly on ASCII strings (where byte count =
char count); strings with multi-byte characters are outside the modelled
domain. -/
def levF : Nat → List Char → List Char → Nat
  | _, [], ys => ys.length
  | _, x :: xs, [] => (x :: xs).length
  | 0, xs, ys => xs.length + ys.length
  | fuel + 1, x :: xs, y :: ys =>
      let cost := if x = y then 0 else 1
      min (levF fuel xs ys + cost)
        (min (levF fuel (x :: xs) ys + 1) (levF fuel xs (y :: ys) + 1))

/-- `Deduplicator::levenshtein_distance`. -/
def levenshtein_distance (s1 s2 : List Char) : Nat :=
  levF (s1.length + s2.length) s1 s2

/-- `Deduplicator::levenshtein_similarity`, with the two `as f64` casts, the
division and the subtraction each rounded as the hardware does (the equality
test against `0.0` is exact). -/
def levenshtein_similarity (s1 s2 : List Char) : ℚ :=
  let distance : ℚ := F64.ofNat (levenshtein_distance s1 s2)
  let max_len : ℚ := F64.ofNat (max s1.length s2.length)
  if max_len = 0 then 1 else F64.sub 1 (F64.div distance max_len)

/-- `Deduplicator::similarity_score`, operation for operation in `f64`
arithmetic: each `+=`, `*`, the final division, and every decimal literal
(`0.4`, `0.3`, `0.2`, `0.1`, `0.01` — none exactly representable) is rounded
through `F64.round`, in the source's accumulation order.  The `0.1` bonus is
added only when both discount values are present and differ by less than the
double `0.01`; `weight_total` accumulates `0.4 + 0.3 + 0.3`, which happens to
round to exactly `1.0`. -/
def similarity_score (coupon1 coupon2 : RawCoupon) : ℚ :=
  let codeSim := levenshtein_similarity coupon1.code coupon2.code
  let score1 := F64.add 0 (F64.mul codeSim (F64.round (4 / 10)))
  let weight1 := F64.add 0 (F64.round (4 / 10))
  let titleSim := levenshtein_similarity coupon1.title coupon2.title
  let score2 := F64.add score1 (F64.mul titleSim (F64.round (3 / 10)))
  let weight2 := F64.add weight1 (F64.round (3 / 10))
  let score3 :=
    if coupon1.discount_type = coupon2.discount_type then
      let sc := F64.add score2 (F64.round (2 / 10))
      match coupon1.discount_value, coupon2.discount_value with
      | some v1, some v2 =>
          if |F64.sub v1 v2| < F64.round (1 / 100) then F64.add sc (F64.round (1 / 10))
          else sc
      | _, _ => sc
    else score2
  let weight3 := F64.add weight2 (F64.round (3 / 10))
  F64.div score3 weight3

/-- `DiscountType::to_string` from `deduplicator.rs`. -/
def discountTypeToString : DiscountType → List Char
  | .Percentage => "percentage".data
  | .Fixed => "fixed".data
  | .FreeShipping => "free_shipping".data
  | .Bogo => "bogo".data
  | .CashBack => "cash_back".data
  | .Points => "points".data
  | .Unknown => "unknown".data

/-- The key of `deduplicate_by_code_and_merchant`: `(code, merchant_domain)`. -/
def cmKey (c : RawCoupon) : List Char × List Char := (c.code, c.merchant_domain)

/-- The data `compute_coupon_hash` feeds into SHA-256: code, merchant domain,
discount-type tag, and the optional discount value.  The digest is a function
of exactly these components, so deduplication by the digest is modelled as
deduplication by them. -/
def hashKey (c : RawCoupon) : List Char × List Char × List Char × Option ℚ :=
  (c.code, c.merchant_domain, discountTypeToString c.discount_type, c.discount_value)

/-- First-occurrence deduplication over an arbitrary key, the common shape of
`deduplicate_by_code_and_merchant` and `deduplicate_by_hash` (`seen` models
the `HashSet`; `seen.insert(key)` is true exactly for unseen keys). -/
def dedupByKeyAux {α κ : Type} [DecidableEq κ] (f : α → κ) :
    List κ → List α → List α
  | _, [] => []
  | seen, c :: rest =>
      if f c ∈ seen then dedupByKeyAux f seen rest
      else c :: dedupByKeyAux f (f c :: seen) rest

/-- `Deduplicator::deduplicate_by_code_and_merchant`. -/
def deduplicate_by_code_and_merchant (coupons : List RawCoupon) : List RawCoupon :=
  dedupByKeyAux cmKey [] coupons

/-- `Deduplicator::deduplicate_by_hash`. -/
def deduplicate_by_hash (coupons : List RawCoupon) : List RawCoupon :=
  dedupByKeyAux hashKey [] coupons

/-- The loop of `Deduplicator::deduplicate_fuzzy`: `kept` is the
`unique_coupons` vector built so far; a candidate is dropped when some kept
record has similarity above the threshold. -/
def fuzzyGo (threshold : ℚ) : List RawCoupon → List RawCoupon → List RawCoupon
  | _, [] => []
  | kept, c :: rest =>
      if kept.any (fun existing => similarity_score existing c > threshold) then
        fuzzyGo threshold kept rest
      else c :: fuzzyGo threshold (kept ++ [c]) rest

/-- `Deduplicator::deduplicate_fuzzy`. -/
def deduplicate_fuzzy (coupons : List RawCoupon) (threshold : ℚ) : List RawCoupon :=
  fuzzyGo threshold [] coupons

/-- The distinct merchant domains of `coupons` in first-occurrence order: a
deterministic rendering of the iteration order of the `HashMap` of
`deduplicate_combined`'s second pass (the map is keyed by `merchant_domain`
and each group collects its coupons in input order; `HashMap` iteration order
is unspecified in Rust, first-occurrence order is fixed here). -/
def merchantKeys (coupons : List RawCoupon) : List (List Char) :=
  dedupByKeyAux id [] (coupons.map (·.merchant_domain))

/-- The second pass of `deduplicate_combined`: group by merchant domain and
run `deduplicate_fuzzy` with threshold `0.85` inside each group. -/
def combinedSecondPass (coupons : List RawCoupon) : List RawCoupon :=
  (merchantKeys coupons).flatMap
    (fun k => deduplicate_fuzzy (coupons.filter (fun c => c.merchant_domain = k)) (F64.round (85 / 100)))

/-- `Deduplicator::deduplicate_combined`. -/
def deduplicate_combined (coupons : List RawCoupon) : List RawCoupon :=
  deduplicate_by_hash (combinedSecondPass (deduplicate_by_code_and_merchant coupons))

/-- `DeduplicationStrategy` from `deduplicator.rs`. -/
inductive DeduplicationStrategy where
  | CodeAndMerchant
  | Fuzzy (threshold : ℚ)
  | HashBased
  | Combined

/-- `Deduplicator::deduplicate`. -/
def deduplicate (strategy : DeduplicationStrategy) (coupons : List RawCoupon) :
    List RawCoupon :=
  match strategy with
  | .CodeAndMerchant => deduplicate_by_code_and_merchant coupons
  | .Fuzzy threshold => deduplicate_fuzzy coupons threshold
  | .HashBased => deduplicate_by_hash coupons
  | .Combined => deduplicate_combined coupons

end Deduplicator

/-- `EngineConfig` from `mod.rs`. -/
structure EngineConfig where
  max_concurrent_requests : Nat
  request_timeout_secs : Nat
  retry_attempts : Nat
  rate_limit_per_domain : Nat
  proxy_rotation_enabled : Bool
  user_agent_rotation : Bool
  cache_duration_secs : Nat

namespace ProxyManager

/-- `ProxyType` from `proxy_manager.rs`. -/
inductive ProxyType where
  | Http
  | Https
  | Socks5
deriving DecidableEq, Repr

/-- `ProxyConfig` from `proxy_manager.rs`. -/
structure ProxyConfig where
  url : List Char
  username : Option (List Char)
  password : Option (List Char)
  proxy_type : ProxyType

/-- `ProxyState`: an entry of the active rotation queue.  `Instant`s are
naturals (milliseconds). -/
structure ProxyState where
  config : ProxyConfig
  last_used : Option Nat
  success_count : Nat
  failure_count : Nat

/-- `FailedProxy`: an entry of the quarantine list. -/
structure FailedProxy where
  config : ProxyConfig
  failed_at : Nat
  reason : List Char

/-- `ProxyManagerConfig` (durations in milliseconds). -/
structure ProxyManagerConfig where
  rotation_interval : Nat
  max_failures : Nat
  retry_after : Nat

/-- The two collections guarded by the manager's mutexes: the active `VecDeque`
(head = front) and the quarantine `Vec`. -/
structure PMState where
  proxies : List ProxyState
  failed : List FailedProxy

/-- `ProxyManager::add_proxy` (`push_back`, fresh counters). -/
def add_proxy (s : PMState) (proxy_config : ProxyConfig) : PMState :=
  { s with proxies := s.proxies ++ [⟨proxy_config, none, 0, 0⟩] }

/-- The loop of `ProxyManager::mark_success`: the first entry whose url matches
gets `success_count` incremented and `failure_count` reset. -/
def markSuccessList (url : List Char) : List ProxyState → List ProxyState
  | [] => []
  | p :: rest =>
      if p.config.url = url then
        { p with success_count := p.success_count + 1, failure_count := 0 } :: rest
      else p :: markSuccessList url rest

/-- `ProxyManager::mark_success`. -/
def mark_success (s : PMState) (url : List Char) : PMState :=
  { s with proxies := markSuccessList url s.proxies }

/-- The loop of `ProxyManager::mark_failure`: the first entry whose url matches
gets `failure_count` incremented; when the new count reaches `max_failures`
the entry is removed and handed back for quarantine. -/
def markFailureList (max_failures : Nat) (reason : List Char) (now : Nat)
    (url : List Char) : List ProxyState → List ProxyState × List FailedProxy
  | [] => ([], [])
  | p :: rest =>
      if p.config.url = url then
        if p.failure_count + 1 ≥ max_failures then (rest, [⟨p.config, now, reason⟩])
        else ({ p with failure_count := p.failure_count + 1 } :: rest, [])
      else
        (p :: (markFailureList max_failures reason now url rest).1,
          (markFailureList max_failures reason now url rest).2)

/-- `ProxyManager::mark_failure`. -/
def mark_failure (cfg : ProxyManagerConfig) (s : PMState) (url reason : List Char)
    (now : Nat) : PMState :=
  let (a, f) := markFailureList cfg.max_failures reason now url s.proxies
  ⟨a, s.failed ++ f⟩

/-- Is a quarantined entry due for recovery (`now − failed_at ≥ retry_after`,
with the saturating subtraction of `Instant::duration_since`)? -/
def dueForRetry (cfg : ProxyManagerConfig) (now : Nat) (f : FailedProxy) : Bool :=
  now - f.failed_at ≥ cfg.retry_after

/-- `ProxyManager::recover_failed_proxies`: `retain` keeps the not-yet-due
entries in order; the recovered ones are re-inserted at the queue tail, in
order, with zeroed counters and unset `last_used`. -/
def recover_failed_proxies (cfg : ProxyManagerConfig) (s : PMState) (now : Nat) :
    PMState :=
  let recovered := s.failed.filter (dueForRetry cfg now)
  ⟨s.proxies ++ recovered.map (fun f => ⟨f.config, none, 0, 0⟩),
    s.failed.filter (fun f => !dueForRetry cfg now f)⟩

/-- The rotation loop of `ProxyManager::get_next_proxy`.  `fuel` is
`proxies.len() − rotations`; when it reaches zero the loop breaks and the
head (least recently used) is selected anyway.  A selected entry is stamped
`last_used = now` and moved to the tail. -/
def selectGo (cfg : ProxyManagerConfig) (now : Nat) :
    Nat → List ProxyState → Option (ProxyConfig × List ProxyState)
  | _, [] => none
  | 0, p :: rest => some (p.config, rest ++ [{ p with last_used := some now }])
  | fuel + 1, p :: rest =>
      let should_use :=
        match p.last_used with
        | none => true
        | some last_used => now - last_used ≥ cfg.rotation_interval
      if should_use then some (p.config, rest ++ [{ p with last_used := some now }])
      else selectGo cfg now fuel (rest ++ [p])

/-- `ProxyManager::get_next_proxy`: recovery first, `None` on an empty queue,
then the rotation loop. -/
def get_next_proxy (cfg : ProxyManagerConfig) (s : PMState) (now : Nat) :
    Option ProxyConfig × PMState :=
  let s1 := recover_failed_proxies cfg s now
  if s1.proxies.isEmpty then (none, s1)
  else
    match selectGo cfg now s1.proxies.length s1.proxies with
    | some (c, q) => (some c, ⟨q, s1.failed⟩)
    | none => (none, s1)

/-- The combined multiset of proxy identities (urls) across the active queue
and the quarantine list: the "each entry is in exactly one of the two
collections" invariant is conservation of this multiset. -/
def allUrls (s : PMState) : Multiset (List Char) :=
  (s.proxies.map (fun p => p.config.url) : Multiset (List Char)) +
    (s.failed.map (fun f => f.config.url) : Multiset (List Char))

end ProxyManager

namespace Scraper

/-- `ContentType` from `scraper.rs`. -/
inductive ContentType where
  | Html
  | Json
  | Csv
  | Unknown
deriving DecidableEq, Repr

/-- `char::is_whitespace`: the Unicode `White_Space` property. -/
def rustIsWhitespace (c : Char) : Bool :=
  c = ' ' ∨ c = '\t' ∨ c = '\n' ∨ c = '\r' ∨
  c = Char.ofNat 0x0B ∨ c = Char.ofNat 0x0C ∨ c = Char.ofNat 0x85 ∨
  c = Char.ofNat 0xA0 ∨ c = Char.ofNat 0x1680 ∨
  (Char.ofNat 0x2000 ≤ c ∧ c ≤ Char.ofNat 0x200A) ∨
  c = Char.ofNat 0x2028 ∨ c = Char.ofNat 0x2029 ∨ c = Char.ofNat 0x202F ∨
  c = Char.ofNat 0x205F ∨ c = Char.ofNat 0x3000

/-- `str::trim_start`. -/
def rustTrimStart (s : List Char) : List Char := s.dropWhile rustIsWhitespace

/-- Strips one trailing carriage return (`str::lines` does this per line). -/
def stripCR (l : List Char) : List Char :=
  if l.getLast? = some '\r' then l.dropLast else l

/-- `str::lines`: split at `'\n'`, a trailing final newline yields no extra
empty line, and each line loses one trailing `'\r'`.  The empty string has no
lines. -/
def rustLines (s : List Char) : List (List Char) :=
  if s.isEmpty then []
  else
    let parts := Validator.splitOnChar '\n' s
    let parts := if parts.getLast? = some [] then parts.dropLast else parts
    parts.map stripCR

/-- `detect_content_type` from `scraper.rs`. -/
def detect_content_type (content : List Char) : ContentType :=
  let trimmed := rustTrimStart content
  if trimmed.head? = some '{' ∨ trimmed.head? = some '[' then ContentType.Json
  else if trimmed.head? = some '<' then ContentType.Html
  else if trimmed.contains '\t' ∨ (rustLines trimmed).all (fun line => line.contains ',') then
    ContentType.Csv
  else ContentType.Unknown

/-- One proxy-pool interaction, as the specification describes them. -/
inductive ProxyOp where
  | getNext
  | markSuccess (url : List Char)
  | markFailure (url reason : List Char)

/-- An observable effect of a `fetch_content` run. -/
inductive FetchEffect where
  | slept (ms : Nat)
  | proxy (op : ProxyOp)

/-- The retry loop of `Scraper::fetch_content`.  `outcomes attempt` is the
result of `fetch_with_client` on that attempt (transport errors, non-2xx
statuses and empty bodies all surface as `Except.error`); client and
user-agent selection influence only the request itself, not the control
flow modelled here.  The loop body contains no proxy-pool interaction —
`Scraper` holds no proxy manager. -/
def fetchLoop (outcomes : Nat → Except (List Char) (List Char)) :
    Nat → Nat → Option (List Char) → List FetchEffect →
    Except (List Char) (List Char) × List FetchEffect
  | _, 0, last_error, effects =>
      (.error (last_error.getD "All retry attempts failed".data), effects)
  | attempt, remaining + 1, last_error, effects =>
      let effects :=
        if attempt > 0 then effects ++ [FetchEffect.slept (1000 * 2 ^ attempt)]
        else effects
      match outcomes attempt with
      | .ok content => (.ok content, effects)
      | .error e => fetchLoop outcomes (attempt + 1) remaining (some e) effects

/-- The outcome of one `Scraper::fetch_content` call: its result, the proxy
pool afterwards (threaded through unchanged — the scraper has no reference to
it), and the effects performed. -/
structure FetchRun where
  result : Except (List Char) (List Char)
  pool : ProxyManager.PMState
  effects : List FetchEffect

/-- `Scraper::fetch_content`. -/
def fetch_content (config : EngineConfig)
    (outcomes : Nat → Except (List Char) (List Char))
    (pool : ProxyManager.PMState) : FetchRun :=
  let (r, eff) := fetchLoop outcomes 0 config.retry_attempts none []
  ⟨r, pool, eff⟩

end Scraper

namespace RateLimiter

/-- `DomainLimit` from `rate_limiter.rs` (times in milliseconds). -/
structure DomainLimit where
  max_requests : Nat
  window_duration : Nat
  request_times : List Nat

/-- The `retain` call of `wait_if_needed`: keep the timestamps with
`now.duration_since(time) < window` (saturating subtraction, like
`Instant::duration_since`). -/
def pruneTimes (now window : Nat) (times : List Nat) : List Nat :=
  times.filter (fun t => now - t < window)

/-- The per-domain entry created lazily by `limits.entry(..).or_insert_with`:
the configured default rate over a 60-second window, no timestamps. -/
def freshLimit (default_rate : Nat) : DomainLimit :=
  ⟨default_rate, 60000, []⟩

/-- `RateLimiter::wait_if_needed` on one domain's entry, called at `tCall`,
with the tokio mutex acquisitions made explicit.  The guard of the first
`lock()` is `drop`ped only inside the sleep branch; on every other path it is
still held when the final "record this request" section calls `lock()` again
on the same mutex, and a tokio mutex locked by the task already holding it
never completes — `none` models that deadlock.  On the sleep path the guard
was dropped and the re-pruning guard went out of scope, so the final lock
succeeds and the wake time is recorded. -/
def wait_if_needed (limit : DomainLimit) (tCall : Nat) : Option (DomainLimit × Nat) :=
  -- first lock() acquired (mutex free at call time)
  let ts1 := pruneTimes tCall limit.window_duration limit.request_times
  if ts1.length ≥ limit.max_requests then
    match ts1.head? with
    | some oldest =>
        let elapsed := tCall - oldest
        if elapsed < limit.window_duration then
          -- drop(limits); sleep; second lock(); re-prune; second guard dropped
          let tWake := tCall + (limit.window_duration - elapsed) + 100
          let ts2 := pruneTimes tWake limit.window_duration ts1
          -- final lock() succeeds: push Instant::now()
          some ({ limit with request_times := ts2 ++ [tWake] }, tWake)
        else none  -- first guard still held at the final lock(): deadlock
    | none => none  -- first guard still held at the final lock(): deadlock
  else none  -- fast path: first guard still held at the final lock(): deadlock

/-- What one call of `DistributedRateLimiter::wait_if_needed` can observe from
the shared store: `get_connection` fails, or a connection whose atomic
`INCR`+`EXPIRE` pipeline either fails (`none`) or returns a result vector. -/
inductive RedisConnection where
  | connFail
  | query (result : Option (List Int))

/-- The observable control-flow outcome of one
`DistributedRateLimiter::wait_if_needed` call. -/
inductive DistributedOutcome where
  | sleptBackoff
  | proceeded
  | localFallback
deriving DecidableEq, Repr

/-- `DistributedRateLimiter::wait_if_needed`.  `redis_client` is `none` when
no URL was configured or `redis::Client::open` failed at construction.  Note
the `return` at the end of the `if let Ok(mut con)` block: once a connection
is obtained the function returns without touching the local limiter, whether
or not the pipeline query succeeded. -/
def distributed_wait_if_needed (redis_client : Option RedisConnection)
    (default_rate : Nat) : DistributedOutcome :=
  match redis_client with
  | some RedisConnection.connFail => .localFallback
  | some (RedisConnection.query none) => .proceeded
  | some (RedisConnection.query (some results)) =>
      match results.head? with
      | some count => if count > (default_rate : Int) then .sleptBackoff else .proceeded
      | none => .proceeded
  | none => .localFallback

end RateLimiter

namespace Parser

/-- Model of `url::Url::parse(url)?.host_str()` for the absolute
`scheme://host…` URLs the engine handles: the text between the first `"://"`
and the next delimiter.  `Err` (no scheme separator) models a parse failure.
No claim depends on the exact host value. -/
def dropThroughSchemeSep : List Char → Option (List Char)
  | [] => none
  | ':' :: '/' :: '/' :: rest => some rest
  | _ :: rest => dropThroughSchemeSep rest

/-- `Parser::extract_domain`. -/
def extract_domain (url : List Char) : Except (List Char) (List Char) :=
  match dropThroughSchemeSep url with
  | some rest =>
      .ok (rest.takeWhile (fun c => ¬ (c = '/' ∨ c = ':' ∨ c = '?' ∨ c = '#')))
  | none => .error "relative URL without a base".data

/-- `extract_domain(..).unwrap_or_default()`. -/
def extractDomainOrDefault (url : List Char) : List Char :=
  match extract_domain url with
  | .ok d => d
  | .error _ => []

/-- `serde_json::Map::get` (keys are unique in a parsed map; lookup by key). -/
def jsonGet (fields : List (List Char × Json)) (key : List Char) : Option Json :=
  (fields.find? (fun kv => decide (kv.1 = key))).map (·.2)

/-- `Value::as_str`. -/
def asStr : Json → Option (List Char)
  | .jstr s => some s
  | _ => none

/-- `Value::as_f64`. -/
def asF64 : Json → Option ℚ
  | .num q => some q
  | _ => none

/-- `JsonParser::extract_coupon_from_json`, with `Utc::now()` passed
explicitly.  `Option::or` keeps the first *present* key, whether or not it is
a string. -/
def extract_coupon_from_json (value : Json) (source_url : List Char) (now : Int) :
    Option RawCoupon :=
  match value with
  | .obj fields =>
      let codeJson :=
        (jsonGet fields "code".data).or
          ((jsonGet fields "couponCode".data).or (jsonGet fields "promoCode".data))
      match codeJson.bind asStr with
      | none => none
      | some code0 =>
          let titleJson :=
            (jsonGet fields "title".data).or
              ((jsonGet fields "name".data).or (jsonGet fields "description".data))
          some
            { code := rustToUpper code0
              title := (titleJson.bind asStr).getD "Coupon".data
              description := (jsonGet fields "description".data).bind asStr
              discount_type := .Unknown
              discount_value := (jsonGet fields "discountValue".data).bind asF64
              minimum_order := (jsonGet fields "minimumOrder".data).bind asF64
              maximum_discount := none
              valid_from := none
              valid_until := none
              merchant_name := "Unknown".data
              merchant_domain := extractDomainOrDefault source_url
              source_url := source_url
              source_type := .AffiliateApi
              metadata := value
              scraped_at := now }
  | _ => none

/-- A DOM element as the selector extractors see it: its attribute map and its
collected text content (`scraper::ElementRef`). -/
structure HtmlElement where
  attrs : List (List Char × List Char)
  text : List Char

/-- `Element::attr`. -/
def attrGet (element : HtmlElement) (name : List Char) : Option (List Char) :=
  (element.attrs.find? (fun kv => decide (kv.1 = name))).map (·.2)

/-- `text.trim().split_whitespace().next()`: the first maximal run of
non-whitespace characters, if any. -/
def firstWhitespaceToken (s : List Char) : Option (List Char) :=
  let tok := (s.dropWhile Scraper.rustIsWhitespace).takeWhile
    (fun c => !Scraper.rustIsWhitespace c)
  if tok.isEmpty then none else some tok

/-- `CouponExtractor::extract` (the single extractor shared by the generic,
`data_attribute`, `retailmenot` and `coupons_com` selector variants), with
`Utc::now()` passed explicitly. -/
def extractor_extract (element : HtmlElement) (source_url : List Char) (now : Int) :
    Option RawCoupon :=
  let codeOpt :=
    match (attrGet element "data-coupon-code".data).or
        (attrGet element "data-clipboard-text".data) with
    | some attr_code => some (rustToUpper attr_code)
    | none => (firstWhitespaceToken element.text).map rustToUpper
  match codeOpt with
  | none => none
  | some code =>
      if code.length < 3 ∨ code.length > 50 then none
      else
        some
          { code := code
            title := ((attrGet element "data-title".data).or
              (attrGet element "title".data)).getD "Coupon Code".data
            description := none
            discount_type := .Unknown
            discount_value := none
            minimum_order := none
            maximum_discount := none
            valid_from := none
            valid_until := none
            merchant_name := "Unknown".data
            merchant_domain := extractDomainOrDefault source_url
            source_url := source_url
            source_type := .WebScraping
            metadata := Json.obj []
            scraped_at := now }

end Parser

/-! Concrete instances used by witnesses and counterexamples. -/

/-- A coupon without a discount value (all other fields well-formed). -/
def couponNoValue : RawCoupon :=
  { code := "AB".data
    title := "T".data
    description := none
    discount_type := .Percentage
    discount_value := none
    minimum_order := none
    maximum_discount := none
    valid_from := none
    valid_until := none
    merchant_name := "Shop".data
    merchant_domain := "shop.com".data
    source_url := "https://shop.com".data
    source_type := .WebScraping
    metadata := Json.obj []
    scraped_at := 0 }

/-- The same coupon with a discount value present. -/
def couponWithValue : RawCoupon := { couponNoValue with discount_value := some 10 }

/-- The spec's scenario coupon with the repetitive code `AAAA`: a well-formed
percentage discount and an expiry 30 days after the reference time `0`. -/
def couponAAAA : RawCoupon :=
  { couponNoValue with
      code := "AAAA".data
      discount_value := some 10
      valid_until := some 2592000 }

/-- The same scenario with code `SAVE20`. -/
def couponSAVE20 : RawCoupon := { couponAAAA with code := "SAVE20".data }

/-- A JSON coupon candidate with only a `code` field. -/
def jsonSample : Json := Json.obj [("code".data, Json.jstr "SAVE20".data)]

/-- The coupon the generic JSON parser produces from `jsonSample` fetched from
`https://x.com/a` at time `0`. -/
def jsonSampleCoupon : RawCoupon :=
  { code := "SAVE20".data
    title := "Coupon".data
    description := none
    discount_type := .Unknown
    discount_value := none
    minimum_order := none
    maximum_discount := none
    valid_from := none
    valid_until := none
    merchant_name := "Unknown".data
    merchant_domain := "x.com".data
    source_url := "https://x.com/a".data
    source_type := .AffiliateApi
    metadata := jsonSample
    scraped_at := 0 }

/-- A DOM element carrying a `data-coupon-code` attribute. -/
def elemSample : Parser.HtmlElement :=
  { attrs := [("data-coupon-code".data, "SAVE20".data)], text := [] }

/-- The coupon `CouponExtractor::extract` produces from `elemSample`. -/
def elemSampleCoupon : RawCoupon :=
  { code := "SAVE20".data
    title := "Coupon Code".data
    description := none
    discount_type := .Unknown
    discount_value := none
    minimum_order := none
    maximum_discount := none
    valid_from := none
    valid_until := none
    merchant_name := "Unknown".data
    merchant_domain := "x.com".data
    source_url := "https://x.com/a".data
    source_type := .WebScraping
    metadata := Json.obj []
    scraped_at := 0 }

/-- An engine configuration with proxy rotation enabled and one fetch
attempt. -/
def cfgProxyOn : EngineConfig :=
  { max_concurrent_requests := 100
    request_timeout_secs := 30
    retry_attempts := 1
    rate_limit_per_domain := 10
    proxy_rotation_enabled := true
    user_agent_rotation := true
    cache_duration_secs := 3600 }

/-- An empty proxy pool. -/
def pmEmpty : ProxyManager.PMState := ⟨[], []⟩

/-- An attempt oracle whose first attempt is a 2xx response with a non-empty
body. -/
def okOracle : Nat → Except (List Char) (List Char) := fun _ => .ok "X".data

/-! Theorems. -/

/-- C1: the claim bounds the successful returns of
`RateLimiter::wait_if_needed` per trailing 60-second window, but the code
contradicts its own test `test_basic_rate_limiting` (which expects ten such
calls to complete): on every path except the sleep branch, the guard of the
first `lock()` is still held when the "record this request" section locks the
same tokio mutex again, so the call deadlocks and never returns.  First part:
a call on a freshly created domain entry (empty timestamp list — the only
reachable state) never returns, whatever the configured rate and call time.
Second part: a call can only return when the domain already has recorded
timestamps, which can never arise since recording only happens in a
returning call. -/
theorem C1_wait_if_needed_deadlocks :
    (∀ default_rate tCall : Nat,
      RateLimiter.wait_if_needed (RateLimiter.freshLimit default_rate) tCall = none) ∧
    (∀ (limit : RateLimiter.DomainLimit) (tCall : Nat)
      (out : RateLimiter.DomainLimit × Nat),
      RateLimiter.wait_if_needed limit tCall = some out →
        limit.request_times ≠ []) := by
  constructor
  · intro default_rate tCall
    unfold RateLimiter.wait_if_needed RateLimiter.freshLimit RateLimiter.pruneTimes
    simp
  · intro limit tCall out h hnil
    unfold RateLimiter.wait_if_needed at h
    rw [hnil] at h
    simp [RateLimiter.pruneTimes] at h

/-- C7 counterexample: when a connection to the shared store is obtained but
the atomic increment pipeline fails, `DistributedRateLimiter::wait_if_needed`
returns directly (the `return` closing the `if let Ok(mut con)` block) and
does not fall back to the local sliding-window limiter, contradicting the
claim that every shared-store failure falls back. -/
theorem C7_counterexample_query_failure :
    RateLimiter.distributed_wait_if_needed
        (some (RateLimiter.RedisConnection.query none)) 10 ≠
      RateLimiter.DistributedOutcome.localFallback := by
  simp [RateLimiter.distributed_wait_if_needed]

/-- C7 amended: the fall back to the local sliding-window discipline happens
exactly when no usable shared-store client exists (no URL configured /
`Client::open` failed) or `get_connection` fails; when the increment query
itself fails the call returns with neither shared nor local limiting. -/
theorem C7_fallback_iff_no_connection :
    ∀ (redis_client : Option RateLimiter.RedisConnection) (default_rate : Nat),
      RateLimiter.distributed_wait_if_needed redis_client default_rate =
          RateLimiter.DistributedOutcome.localFallback ↔
        (redis_client = none ∨
          redis_client = some RateLimiter.RedisConnection.connFail) := by
  intro redis_client default_rate
  rcases redis_client with _ | conn
  · simp [RateLimiter.distributed_wait_if_needed]
  · rcases conn with _ | res
    · simp [RateLimiter.distributed_wait_if_needed]
    · rcases res with _ | results
      · simp [RateLimiter.distributed_wait_if_needed]
      · rcases results with _ | ⟨count, rest⟩
        · simp [RateLimiter.distributed_wait_if_needed]
        · simp only [RateLimiter.distributed_wait_if_needed, List.head?_cons]
          split <;> simp

/-- C10: a payload that is empty or all whitespace trims to the empty string,
whose zero lines make the "every line contains a comma" check vacuously true,
so `detect_content_type` classifies it as CSV. -/
theorem C10_whitespace_only_is_csv :
    ∀ content : List Char, content.all Scraper.rustIsWhitespace = true →
      Scraper.detect_content_type content = Scraper.ContentType.Csv := by
  intro content h
  have htrim : Scraper.rustTrimStart content = [] := by
    unfold Scraper.rustTrimStart
    rw [List.dropWhile_eq_nil_iff]
    exact fun x hx => List.all_eq_true.mp h x hx
  simp only [Scraper.detect_content_type, htrim]
  decide

/-- C10 witness: a concrete whitespace-only payload. -/
theorem C10_witness :
    " \n\t ".data.all Scraper.rustIsWhitespace = true ∧
      Scraper.detect_content_type " \n\t ".data = Scraper.ContentType.Csv :=
  ⟨by decide, C10_whitespace_only_is_csv _ (by decide)⟩

theorem fetchLoop_no_proxy_ops (outcomes : Nat → Except (List Char) (List Char)) :
    ∀ (remaining attempt : Nat) (last_error : Option (List Char))
      (effects : List Scraper.FetchEffect),
      (∀ op, Scraper.FetchEffect.proxy op ∉ effects) →
      ∀ op, Scraper.FetchEffect.proxy op ∉
        (Scraper.fetchLoop outcomes attempt remaining last_error effects).2 := by
  intro remaining
  induction remaining with
  | zero =>
    intro attempt last_error effects h op
    simpa [Scraper.fetchLoop] using h op
  | succ n ih =>
    intro attempt last_error effects h op
    unfold Scraper.fetchLoop
    have h' : ∀ op, Scraper.FetchEffect.proxy op ∉
        (if attempt > 0 then effects ++ [Scraper.FetchEffect.slept (1000 * 2 ^ attempt)]
          else effects) := by
      intro op'
      split
      · intro hmem
        rcases List.mem_append.mp hmem with hm | hm
        · exact h op' hm
        · simp at hm
      · exact h op'
    rcases houtcome : outcomes attempt with e | content
    · simp only [houtcome]
      exact ih (attempt + 1) (some e) _ h' op
    · simp only [houtcome]
      exact h' op

/-- C2 amended: `Scraper::fetch_content` never interacts with the proxy pool,
whatever the configuration — `CouponEngine::new` constructs a `ProxyManager`
when `proxy_rotation_enabled` is set but stores it in the unused
`_proxy_manager` field, and the scraper holds no reference to it.  The pool
is returned unchanged and the effects of a fetch contain no proxy
operation. -/
theorem C2_fetch_never_touches_proxies :
    ∀ (config : EngineConfig) (outcomes : Nat → Except (List Char) (List Char))
      (pool : ProxyManager.PMState),
      (Scraper.fetch_content config outcomes pool).pool = pool ∧
      ∀ op, Scraper.FetchEffect.proxy op ∉
        (Scraper.fetch_content config outcomes pool).effects := by
  intro config outcomes pool
  refine ⟨rfl, ?_⟩
  intro op
  exact fetchLoop_no_proxy_ops outcomes config.retry_attempts 0 none []
    (by intro op' h; simp at h) op

/-- C2 counterexample: with proxy rotation enabled, a fetch whose single
attempt succeeds with a 2xx non-empty body performs no proxy operation at all
— in particular it neither obtains a proxy from the pool nor calls
`mark_success` — refuting the claim that every attempt obtains the next proxy
and reports its outcome. -/
theorem C2_counterexample_no_proxy_use :
    cfgProxyOn.proxy_rotation_enabled = true ∧
      (Scraper.fetch_content cfgProxyOn okOracle pmEmpty).result = .ok "X".data ∧
      (Scraper.fetch_content cfgProxyOn okOracle pmEmpty).effects = [] :=
  ⟨rfl, rfl, rfl⟩

/-- C9: every coupon produced by the generic JSON candidate extractor or by
the shared selector extractor has `discount_type = Unknown`; the discount
gate rejects `Unknown` regardless of the value; and `is_valid` is false for
every coupon whose discount type is `Unknown` — so only the text-regex pass
and the CSV parser (which assign other discount types) can produce coupons
that survive validation. -/
theorem C9_selector_and_json_coupons_invalid :
    (∀ (value : Json) (source_url : List Char) (now : Int) (c : RawCoupon),
      Parser.extract_coupon_from_json value source_url now = some c →
        c.discount_type = DiscountType.Unknown) ∧
    (∀ (element : Parser.HtmlElement) (source_url : List Char) (now : Int)
      (c : RawCoupon),
      Parser.extractor_extract element source_url now = some c →
        c.discount_type = DiscountType.Unknown) ∧
    (∀ value : Option ℚ,
      Validator.validate_discount DiscountType.Unknown value = false) ∧
    (∀ (c : RawCoupon) (now : Int), c.discount_type = DiscountType.Unknown →
      Validator.is_valid c now = false) := by
  refine ⟨?_, ?_, ?_, ?_⟩
  · intro value source_url now c h
    cases value <;> simp only [Parser.extract_coupon_from_json] at h
    case obj fields =>
      split at h
      · exact absurd h (by simp)
      · obtain rfl := Option.some.inj h
        rfl
    all_goals exact absurd h (by simp)
  · intro element source_url now c h
    simp only [Parser.extractor_extract] at h
    split at h
    · exact absurd h (by simp)
    · split at h
      · exact absurd h (by simp)
      · obtain rfl := Option.some.inj h
        rfl
  · intro value
    rfl
  · intro c now h
    unfold Validator.is_valid
    rw [h]
    simp [Validator.validate_discount]

/-- C9 witness: concrete JSON and DOM inputs whose extracted coupons carry
`Unknown` and fail validation. -/
theorem C9_witness :
    Parser.extract_coupon_from_json jsonSample "https://x.com/a".data 0 =
        some jsonSampleCoupon ∧
      Parser.extractor_extract elemSample "https://x.com/a".data 0 =
        some elemSampleCoupon ∧
      jsonSampleCoupon.discount_type = DiscountType.Unknown ∧
      Validator.is_valid jsonSampleCoupon 0 = false ∧
      Validator.is_valid elemSampleCoupon 0 = false :=
  ⟨rfl, rfl,
    C9_selector_and_json_coupons_invalid.1 jsonSample "https://x.com/a".data 0
      jsonSampleCoupon rfl,
    C9_selector_and_json_coupons_invalid.2.2.2 jsonSampleCoupon 0
      (C9_selector_and_json_coupons_invalid.1 jsonSample "https://x.com/a".data 0
        jsonSampleCoupon rfl),
    C9_selector_and_json_coupons_invalid.2.2.2 elemSampleCoupon 0
      (C9_selector_and_json_coupons_invalid.2.1 elemSample "https://x.com/a".data 0
        elemSampleCoupon rfl)⟩

theorem levF_symm (fuel : Nat) :
    ∀ xs ys : List Char, Deduplicator.levF fuel xs ys = Deduplicator.levF fuel ys xs := by
  induction fuel with
  | zero =>
    intro xs ys
    cases xs <;> cases ys <;> simp [Deduplicator.levF, Nat.add_comm]
  | succ n ih =>
    intro xs ys
    cases xs with
    | nil => cases ys <;> simp [Deduplicator.levF]
    | cons x xs' =>
      cases ys with
      | nil => simp [Deduplicator.levF]
      | cons y ys' =>
        simp only [Deduplicator.levF]
        rw [ih xs' ys', ih (x :: xs') ys', ih xs' (y :: ys')]
        have hc : (if x = y then 0 else 1) = (if y = x then 0 else 1) := by
          by_cases h : x = y
          · simp [h]
          · rw [if_neg h, if_neg (fun h2 : y = x => h h2.symm)]
        rw [hc, Nat.min_comm (Deduplicator.levF n ys' (x :: xs') + 1)]

theorem levF_self (s : List Char) :
    ∀ fuel : Nat, s.length ≤ fuel → Deduplicator.levF fuel s s = 0 := by
  induction s with
  | nil => intro fuel _; cases fuel <;> simp [Deduplicator.levF]
  | cons x xs ih =>
    intro fuel h
    cases fuel with
    | zero => simp at h
    | succ n =>
      simp only [Deduplicator.levF]
      rw [ih n (by simp at h; omega)]
      simp

theorem levenshtein_distance_self (s : List Char) :
    Deduplicator.levenshtein_distance s s = 0 :=
  levF_self s _ (by omega)

theorem levenshtein_distance_symm (s1 s2 : List Char) :
    Deduplicator.levenshtein_distance s1 s2 = Deduplicator.levenshtein_distance s2 s1 := by
  unfold Deduplicator.levenshtein_distance
  rw [levF_symm, Nat.add_comm]

theorem F64_round_zero : F64.round 0 = 0 := by
  simp [F64.round]

theorem F64_round_neg (q : ℚ) : F64.round (-q) = -F64.round q := by
  unfold F64.round
  rcases lt_trichotomy q 0 with h | h | h
  · rw [if_neg (by simpa using h.ne), if_pos (by simpa using h), if_neg h.ne,
      if_neg (not_lt.mpr h.le), neg_neg]
  · subst h
    simp
  · rw [if_neg (by simpa using h.ne'), if_neg (by simpa using h.le),
      if_neg h.ne', if_pos h, neg_neg]

theorem F64_natLog2F_eq (fuel : Nat) :
    ∀ n : Nat, n ≤ fuel → F64.natLog2F fuel n = Nat.log2 n := by
  induction fuel with
  | zero =>
    intro n h
    interval_cases n
    simp [F64.natLog2F, Nat.log2]
  | succ fuel ih =>
    intro n h
    rw [F64.natLog2F, Nat.log2]
    by_cases h2 : 2 ≤ n
    · rw [if_pos h2, if_pos h2, ih _ (by omega)]
    · rw [if_neg h2, if_neg h2]

theorem F64_natLog2_eq (n : Nat) : F64.natLog2 n = Nat.log2 n :=
  F64_natLog2F_eq n n le_rfl

theorem F64_pow2_eq (k : ℤ) : F64.pow2 k = (2 : ℚ) ^ k := by
  unfold F64.pow2
  split
  next h =>
    rw [show ((2 : ℚ)) ^ k = (2 : ℚ) ^ (k.toNat : ℕ) by
      rw [← zpow_natCast, Int.toNat_of_nonneg h]]
    push_cast
    ring
  next h =>
    rw [show ((2 : ℚ)) ^ k = ((2 : ℚ) ^ ((-k).toNat : ℕ))⁻¹ by
      rw [← zpow_natCast, Int.toNat_of_nonneg (by omega : (0 : ℤ) ≤ -k), ← zpow_neg,
        neg_neg]]
    congr 1
    push_cast
    ring

theorem F64_pow2_pos (k : ℤ) : 0 < F64.pow2 k := by
  rw [F64_pow2_eq]
  exact zpow_pos (by norm_num) _

theorem F64_roundPosInt_pos (x : ℚ) (hx : 1 ≤ x) : 0 < F64.roundPosInt x := by
  have hd : 0 < x.den := x.den_pos
  have h1 : (x.den : ℚ) ≤ (x.num : ℚ) := by
    have h1' := hx
    rw [← Rat.num_div_den x] at h1'
    exact (one_le_div (by exact_mod_cast hd)).mp h1'
  have h2 : x.den ≤ x.num.toNat := by
    have : (x.den : ℤ) ≤ x.num := by exact_mod_cast h1
    omega
  have hq : 1 ≤ x.num.toNat / x.den := (Nat.one_le_div_iff hd).mpr h2
  simp only [F64.roundPosInt]
  split_ifs <;> omega

theorem F64_roundPos_pos (q : ℚ) (hq : 0 < q) : 0 < F64.roundPos q := by
  have htwo : (0 : ℚ) < 2 := by norm_num
  have hnum : 0 < q.num := Rat.num_pos.mpr hq
  have hn0 : q.num.toNat ≠ 0 := by omega
  have hd0 : q.den ≠ 0 := q.den_nz
  have he : F64.floorLog2 q ≤ (Nat.log2 q.num.toNat : ℤ) - (Nat.log2 q.den : ℤ) := by
    simp only [F64.floorLog2, F64_natLog2_eq]
    split <;> omega
  have hlow : (2 : ℚ) ^ ((Nat.log2 q.num.toNat : ℤ) - (Nat.log2 q.den : ℤ) - 1) < q := by
    have h2a : 2 ^ Nat.log2 q.num.toNat ≤ q.num.toNat := Nat.log2_self_le hn0
    have h2b : q.den < 2 ^ (Nat.log2 q.den + 1) := (Nat.log2_lt hd0).mp (Nat.lt_succ_self _)
    have hqa : (2 : ℚ) ^ ((Nat.log2 q.num.toNat : ℕ) : ℤ) ≤ (q.num.toNat : ℚ) := by
      rw [zpow_natCast]
      exact_mod_cast h2a
    have hqb : (q.den : ℚ) < (2 : ℚ) ^ (((Nat.log2 q.den : ℕ) : ℤ) + 1) := by
      rw [show (((Nat.log2 q.den : ℕ) : ℤ) + 1) = ((Nat.log2 q.den + 1 : ℕ) : ℤ) by
        push_cast; ring, zpow_natCast]
      exact_mod_cast h2b
    have hdpos : (0 : ℚ) < (q.den : ℚ) := by
      exact_mod_cast Nat.pos_of_ne_zero hd0
    have hnpos : (0 : ℚ) < (q.num.toNat : ℚ) := by
      exact_mod_cast Nat.pos_of_ne_zero hn0
    have hq_eq : (q.num.toNat : ℚ) / (q.den : ℚ) = q := by
      have hnn : ((q.num.toNat : ℕ) : ℚ) = ((q.num : ℤ) : ℚ) := by
        exact_mod_cast Int.toNat_of_nonneg hnum.le
      rw [hnn]
      exact Rat.num_div_den q
    calc (2 : ℚ) ^ ((Nat.log2 q.num.toNat : ℤ) - (Nat.log2 q.den : ℤ) - 1)
        = (2 : ℚ) ^ ((Nat.log2 q.num.toNat : ℕ) : ℤ) /
            (2 : ℚ) ^ (((Nat.log2 q.den : ℕ) : ℤ) + 1) := by
          rw [← zpow_sub₀ (by norm_num : (2 : ℚ) ≠ 0)]
          congr 1
          ring
      _ ≤ (q.num.toNat : ℚ) / (2 : ℚ) ^ (((Nat.log2 q.den : ℕ) : ℤ) + 1) :=
          (div_le_div_right (zpow_pos htwo _)).mpr hqa
      _ < (q.num.toNat : ℚ) / (q.den : ℚ) :=
          div_lt_div_of_pos_left hnpos hdpos hqb
      _ = q := hq_eq
  have hx : 1 ≤ q * (2 : ℚ) ^ ((52 : ℤ) - F64.floorLog2 q) := by
    calc (1 : ℚ) ≤ (2 : ℚ) ^ (51 : ℤ) := by
          rw [show ((51 : ℤ)) = ((51 : ℕ) : ℤ) by rfl, zpow_natCast]
          norm_num
      _ = (2 : ℚ) ^ ((Nat.log2 q.num.toNat : ℤ) - (Nat.log2 q.den : ℤ) - 1) *
            (2 : ℚ) ^ ((52 : ℤ) -
              ((Nat.log2 q.num.toNat : ℤ) - (Nat.log2 q.den : ℤ))) := by
          rw [← zpow_add₀ (by norm_num : (2 : ℚ) ≠ 0)]
          congr 1
          ring
      _ ≤ q * (2 : ℚ) ^ ((52 : ℤ) - F64.floorLog2 q) := by
          refine mul_le_mul hlow.le
            (zpow_le_zpow_right₀ (by norm_num) (by omega))
            (zpow_pos htwo _).le hq.le
  simp only [F64.roundPos]
  refine mul_pos ?_ (F64_pow2_pos _)
  refine Nat.cast_pos.mpr (F64_roundPosInt_pos _ ?_)
  rw [F64_pow2_eq]
  exact hx

theorem F64_round_pos (q : ℚ) (hq : 0 < q) : 0 < F64.round q := by
  unfold F64.round
  rw [if_neg hq.ne', if_pos hq]
  exact F64_roundPos_pos q hq

theorem F64_ofNat_pos (n : Nat) (h : n ≠ 0) : 0 < F64.ofNat n :=
  F64_round_pos _ (by exact_mod_cast Nat.pos_of_ne_zero h)

attribute [local semireducible] Rat.add Rat.sub Rat.mul Rat.inv

set_option maxRecDepth 100000 in
theorem F64_round_one : F64.round 1 = 1 := by
  decide

theorem levenshtein_similarity_self (s : List Char) :
    Deduplicator.levenshtein_similarity s s = 1 := by
  simp only [Deduplicator.levenshtein_similarity, levenshtein_distance_self]
  have h0 : F64.ofNat 0 = 0 := by
    simp [F64.ofNat, F64.round]
  by_cases hlen : s.length = 0
  · rw [show max s.length s.length = 0 by omega, h0]
    simp
  · have hpos : 0 < F64.ofNat (max s.length s.length) :=
      F64_ofNat_pos _ (by omega)
    rw [h0, if_neg hpos.ne']
    rw [show F64.div 0 (F64.ofNat (max s.length s.length)) = 0 by
      simp [F64.div, F64.round]]
    rw [show F64.sub 1 (0 : ℚ) = F64.round 1 by
      simp [F64.sub]]
    exact F64_round_one

theorem levenshtein_similarity_symm (s1 s2 : List Char) :
    Deduplicator.levenshtein_similarity s1 s2 = Deduplicator.levenshtein_similarity s2 s1 := by
  simp only [Deduplicator.levenshtein_similarity]
  rw [levenshtein_distance_symm, Nat.max_comm]

set_option maxRecDepth 100000 in
/-- C3 amended: the similarity score is symmetric, but reflexivity at `1.0`
fails for every coupon: with the source's `f64` accumulation
`similarity_score(a, a)` is the double `0.9999999999999999`
(`= (2^53 − 1) / 2^53`, not `1.0`) when `discount_value` is present, and the
double `0.8999999999999999` (`= 2026619832316723 / 2^51`) when it is absent —
the `0.1` bonus requires both values present, while `weight_total`
(`0.4 + 0.3 + 0.3`, which rounds to exactly `1.0`) still counts the full
discount dimension. -/
theorem C3_similarity_symmetric_reflexive :
    (∀ a b : RawCoupon,
      Deduplicator.similarity_score a b = Deduplicator.similarity_score b a) ∧
    (∀ a : RawCoupon, a.discount_value.isSome = true →
      Deduplicator.similarity_score a a = 9007199254740991 / 9007199254740992) ∧
    (∀ a : RawCoupon, a.discount_value = none →
      Deduplicator.similarity_score a a = 2026619832316723 / 2251799813685248) := by
  refine ⟨?_, ?_, ?_⟩
  · intro a b
    simp only [Deduplicator.similarity_score]
    rw [levenshtein_similarity_symm a.code b.code,
      levenshtein_similarity_symm a.title b.title]
    congr 1
    by_cases hdt : a.discount_type = b.discount_type
    · rw [if_pos hdt, if_pos hdt.symm]
      cases a.discount_value with
      | none => cases b.discount_value <;> rfl
      | some v1 =>
        cases b.discount_value with
        | none => rfl
        | some v2 =>
          have hsub : F64.sub v2 v1 = -F64.sub v1 v2 := by
            unfold F64.sub
            rw [← F64_round_neg]
            congr 1
            ring
          simp [hsub, abs_neg]
    · rw [if_neg hdt, if_neg (fun h : b.discount_type = a.discount_type => hdt h.symm)]
  · intro a ha
    obtain ⟨v, hv⟩ := Option.isSome_iff_exists.mp ha
    simp only [Deduplicator.similarity_score]
    rw [levenshtein_similarity_self, levenshtein_similarity_self, hv]
    have hsv : F64.sub v v = 0 := by
      unfold F64.sub
      rw [sub_self, F64_round_zero]
    simp [hsv]
    decide
  · intro a ha
    simp only [Deduplicator.similarity_score]
    rw [levenshtein_similarity_self, levenshtein_similarity_self, ha]
    simp
    decide

set_option maxRecDepth 100000 in
/-- C3 counterexample: for a concrete coupon the reflexive similarity is not
`1.0` (here `discount_value` is absent and the value is the double
`0.8999999999999999`; with the value present it would be the double
`0.9999999999999999` — still not `1.0`). -/
theorem C3_counterexample_reflexivity :
    Deduplicator.similarity_score couponNoValue couponNoValue ≠ 1 := by
  decide

/-- C3 witness: both reflexive cases at concrete coupons. -/
theorem C3_witness :
    (couponWithValue.discount_value.isSome = true ∧
      Deduplicator.similarity_score couponWithValue couponWithValue =
        9007199254740991 / 9007199254740992) ∧
    (couponNoValue.discount_value = none ∧
      Deduplicator.similarity_score couponNoValue couponNoValue =
        2026619832316723 / 2251799813685248) :=
  ⟨⟨rfl, C3_similarity_symmetric_reflexive.2.1 couponWithValue rfl⟩,
    ⟨rfl, C3_similarity_symmetric_reflexive.2.2 couponNoValue rfl⟩⟩

theorem mem_range'_four (i k : Nat) : i ∈ List.range' 4 k ↔ 4 ≤ i ∧ i < 4 + k := by
  rw [List.mem_range']
  constructor
  · rintro ⟨j, hj, rfl⟩; omega
  · rintro ⟨h1, h2⟩; exact ⟨i - 4, by omega, by omega⟩

theorem has_repetitive_iff (code : List Char) :
    Validator.has_repetitive_pattern code = true ↔ Validator.repetitiveSpec code := by
  simp only [Validator.has_repetitive_pattern, Validator.repetitiveSpec]
  split_ifs with h1 h2 h3
  · simp only [Bool.false_eq_true, false_iff]
    rintro ⟨h4, _⟩
    omega
  · simp only [true_iff]
    simp only [List.all_eq_true, decide_eq_true_eq] at h2
    exact ⟨by omega, Or.inl h2⟩
  · simp only [true_iff]
    obtain ⟨h4, h02, h13, hloop⟩ := h3
    simp only [List.all_eq_true, decide_eq_true_eq, mem_range'_four] at hloop
    refine ⟨h4, Or.inr ?_⟩
    intro i hi
    match i with
    | 0 => rfl
    | 1 => rfl
    | 2 => exact h02.symm
    | 3 => exact h13.symm
    | (n + 4) => exact hloop (n + 4) ⟨by omega, by omega⟩
  · simp only [Bool.false_eq_true, false_iff]
    rintro ⟨h4, hall | hmod⟩
    · exact h2 (List.all_eq_true.mpr (fun x hx => decide_eq_true (hall x hx)))
    · refine h3 ⟨h4, (hmod 2 (by omega)).symm, (hmod 3 (by omega)).symm, ?_⟩
      simp only [List.all_eq_true, decide_eq_true_eq, mem_range'_four]
      intro i hi
      exact hmod i (by omega)

/-- C6: the validator's code gate accepts a code exactly when it matches
`^[A-Z0-9]{3,50}$`, contains none of the spam substrings in its uppercased
form, and is not repetitive in the spec's sense (length at least 4 and either
all characters equal or `chars[i] = chars[i mod 2]` everywhere); concretely,
`AAAA` with a well-formed percentage discount and a 30-day expiry is rejected
by `is_valid` while `SAVE20` in the same context is accepted. -/
theorem C6_code_gate :
    (∀ code : List Char, Validator.validate_code code = true ↔
      (Validator.matchesCodePattern code = true ∧
        (∀ kw ∈ Validator.spamKeywords, ¬ kw <:+: rustToUpper code) ∧
        ¬ Validator.repetitiveSpec code)) ∧
    Validator.is_valid couponAAAA 0 = false ∧
    Validator.is_valid couponSAVE20 0 = true := by
  refine ⟨?_, by decide, by decide⟩
  intro code
  simp only [Validator.validate_code]
  by_cases hm : Validator.matchesCodePattern code = true
  · rw [if_neg (not_not_intro hm)]
    by_cases ha : (Validator.spamKeywords.any
        (fun kw => containsSub (rustToUpper code) kw)) = true
    · rw [if_pos ha]
      simp only [List.any_eq_true] at ha
      obtain ⟨kw, hkw, hc⟩ := ha
      simp only [Bool.false_eq_true, false_iff]
      rintro ⟨_, hno, _⟩
      exact hno kw hkw (of_decide_eq_true hc)
    · rw [if_neg ha]
      by_cases hr : Validator.has_repetitive_pattern code = true
      · rw [if_pos hr]
        simp only [Bool.false_eq_true, false_iff]
        rintro ⟨_, _, hnr⟩
        exact hnr ((has_repetitive_iff code).mp hr)
      · rw [if_neg hr]
        constructor
        · intro _
          exact ⟨hm,
            fun kw hkw hin => ha (List.any_eq_true.mpr ⟨kw, hkw, decide_eq_true hin⟩),
            fun hsp => hr ((has_repetitive_iff code).mpr hsp)⟩
        · intro _
          rfl
  · rw [if_pos hm]
    simp only [Bool.false_eq_true, false_iff]
    rintro ⟨hp, _⟩
    exact hm hp

theorem dedupAux_sublist {α κ : Type} [DecidableEq κ] (f : α → κ) :
    ∀ (seen : List κ) (l : List α), Deduplicator.dedupByKeyAux f seen l <+ l := by
  intro seen l
  induction l generalizing seen with
  | nil => simp [Deduplicator.dedupByKeyAux]
  | cons x rest ih =>
    simp only [Deduplicator.dedupByKeyAux]
    by_cases hx : f x ∈ seen
    · rw [if_pos hx]
      exact List.Sublist.cons x (ih seen)
    · rw [if_neg hx]
      exact List.Sublist.cons₂ x (ih (f x :: seen))

theorem dedupAux_not_seen {α κ : Type} [DecidableEq κ] (f : α → κ) :
    ∀ (seen : List κ) (l : List α) (c : α),
      c ∈ Deduplicator.dedupByKeyAux f seen l → f c ∉ seen := by
  intro seen l
  induction l generalizing seen with
  | nil => intro c h; simp [Deduplicator.dedupByKeyAux] at h
  | cons x rest ih =>
    intro c h
    simp only [Deduplicator.dedupByKeyAux] at h
    by_cases hx : f x ∈ seen
    · rw [if_pos hx] at h
      exact ih seen c h
    · rw [if_neg hx] at h
      rcases List.mem_cons.mp h with rfl | hmem
      · exact hx
      · intro hs
        exact ih (f x :: seen) c hmem (List.mem_cons_of_mem _ hs)

theorem dedupAux_map_nodup {α κ : Type} [DecidableEq κ] (f : α → κ) :
    ∀ (seen : List κ) (l : List α),
      ((Deduplicator.dedupByKeyAux f seen l).map f).Nodup := by
  intro seen l
  induction l generalizing seen with
  | nil => simp [Deduplicator.dedupByKeyAux]
  | cons x rest ih =>
    simp only [Deduplicator.dedupByKeyAux]
    by_cases hx : f x ∈ seen
    · rw [if_pos hx]
      exact ih seen
    · rw [if_neg hx]
      refine List.Nodup.cons ?_ (ih (f x :: seen))
      intro hmem
      obtain ⟨y, hy, hfy⟩ := List.mem_map.mp hmem
      exact dedupAux_not_seen f (f x :: seen) rest y hy (hfy ▸ List.mem_cons_self _ _)

theorem dedupAux_find {α κ : Type} [DecidableEq κ] (f : α → κ) :
    ∀ (seen : List κ) (l : List α) (c : α),
      c ∈ Deduplicator.dedupByKeyAux f seen l →
        l.find? (fun x => decide (f x = f c)) = some c := by
  intro seen l
  induction l generalizing seen with
  | nil => intro c h; simp [Deduplicator.dedupByKeyAux] at h
  | cons x rest ih =>
    intro c h
    simp only [Deduplicator.dedupByKeyAux] at h
    by_cases hx : f x ∈ seen
    · rw [if_pos hx] at h
      have hne : ¬ (f x = f c) := fun he => dedupAux_not_seen f seen rest c h (he ▸ hx)
      rw [List.find?_cons_of_neg _ (by simpa using hne)]
      exact ih seen c h
    · rw [if_neg hx] at h
      rcases List.mem_cons.mp h with rfl | hmem
      · exact List.find?_cons_of_pos _ (by simp)
      · have hcs := dedupAux_not_seen f (f x :: seen) rest c hmem
        have hne : ¬ (f x = f c) := fun he => hcs (he ▸ List.mem_cons_self _ _)
        rw [List.find?_cons_of_neg _ (by simpa using hne)]
        exact ih (f x :: seen) c hmem

theorem dedupAux_complete {α κ : Type} [DecidableEq κ] (f : α → κ) :
    ∀ (seen : List κ) (l : List α) (c : α), c ∈ l → f c ∉ seen →
      ∃ d ∈ Deduplicator.dedupByKeyAux f seen l, f d = f c := by
  intro seen l
  induction l generalizing seen with
  | nil => intro c h; simp at h
  | cons x rest ih =>
    intro c hc hcs
    simp only [Deduplicator.dedupByKeyAux]
    by_cases hx : f x ∈ seen
    · rw [if_pos hx]
      rcases List.mem_cons.mp hc with rfl | hmem
      · exact absurd hx hcs
      · exact ih seen c hmem hcs
    · rw [if_neg hx]
      rcases List.mem_cons.mp hc with rfl | hmem
      · exact ⟨c, List.mem_cons_self _ _, rfl⟩
      · by_cases hfc : f c = f x
        · exact ⟨x, List.mem_cons_self _ _, hfc.symm⟩
        · obtain ⟨d, hd, hde⟩ := ih (f x :: seen) c hmem
            (by simp [hcs, hfc])
          exact ⟨d, List.mem_cons_of_mem _ hd, hde⟩

theorem dedupAux_eq_self {α κ : Type} [DecidableEq κ] (f : α → κ) :
    ∀ (seen : List κ) (l : List α), (∀ c ∈ l, f c ∉ seen) → (l.map f).Nodup →
      Deduplicator.dedupByKeyAux f seen l = l := by
  intro seen l
  induction l generalizing seen with
  | nil => intro _ _; rfl
  | cons x rest ih =>
    intro hns hnd
    simp only [Deduplicator.dedupByKeyAux]
    rw [if_neg (hns x (List.mem_cons_self _ _))]
    congr 1
    refine ih (f x :: seen) ?_ (List.Nodup.of_cons (by simpa using hnd))
    intro c hc
    simp only [List.mem_cons]
    push_neg
    constructor
    · intro he
      have : f x ∈ (rest.map f) := he ▸ List.mem_map_of_mem f hc
      exact (List.nodup_cons.mp (by simpa using hnd)).1 this
    · exact hns c (List.mem_cons_of_mem _ hc)

theorem dedupAux_idem {α κ : Type} [DecidableEq κ] (f : α → κ) (l : List α) :
    Deduplicator.dedupByKeyAux f [] (Deduplicator.dedupByKeyAux f [] l) =
      Deduplicator.dedupByKeyAux f [] l :=
  dedupAux_eq_self f [] _ (fun c _ => List.not_mem_nil _) (dedupAux_map_nodup f [] l)

/-- C5: under the CodeAndMerchant strategy each `(code, merchant_domain)` key
occurs at most once in the output; every kept coupon is the first coupon of
the input carrying its key; and every input coupon's key is represented in
the output. -/
theorem C5_code_and_merchant_first_occurrence :
    ∀ l : List RawCoupon,
      ((Deduplicator.deduplicate_by_code_and_merchant l).map Deduplicator.cmKey).Nodup ∧
      (∀ c ∈ Deduplicator.deduplicate_by_code_and_merchant l,
        l.find? (fun x => decide (Deduplicator.cmKey x = Deduplicator.cmKey c)) = some c) ∧
      (∀ c ∈ l, ∃ d ∈ Deduplicator.deduplicate_by_code_and_merchant l,
        Deduplicator.cmKey d = Deduplicator.cmKey c) := by
  intro l
  refine ⟨dedupAux_map_nodup _ _ _, ?_, ?_⟩
  · intro c hc
    exact dedupAux_find _ _ _ c hc
  · intro c hc
    exact dedupAux_complete _ _ _ c hc (List.not_mem_nil _)

/-- C5 witness: a two-element input with equal keys collapses to its first
element. -/
theorem C5_witness :
    couponNoValue ∈
      Deduplicator.deduplicate_by_code_and_merchant [couponNoValue, couponWithValue] ∧
    [couponNoValue, couponWithValue].find?
      (fun x => decide (Deduplicator.cmKey x = Deduplicator.cmKey couponNoValue)) =
        some couponNoValue ∧
    (∃ d ∈ Deduplicator.deduplicate_by_code_and_merchant [couponNoValue, couponWithValue],
      Deduplicator.cmKey d = Deduplicator.cmKey couponWithValue) :=
  ⟨List.mem_cons_self _ _,
    (C5_code_and_merchant_first_occurrence [couponNoValue, couponWithValue]).2.1
      couponNoValue (List.mem_cons_self _ _),
    (C5_code_and_merchant_first_occurrence [couponNoValue, couponWithValue]).2.2
      couponWithValue (List.mem_cons_of_mem _ (List.mem_cons_self _ _))⟩

theorem fuzzyGo_sublist (t : ℚ) :
    ∀ (kept l : List RawCoupon), Deduplicator.fuzzyGo t kept l <+ l := by
  intro kept l
  induction l generalizing kept with
  | nil => simp [Deduplicator.fuzzyGo]
  | cons x rest ih =>
    simp only [Deduplicator.fuzzyGo]
    by_cases hx : (kept.any
        (fun existing => Deduplicator.similarity_score existing x > t)) = true
    · rw [if_pos hx]
      exact List.Sublist.cons x (ih kept)
    · rw [if_neg hx]
      exact List.Sublist.cons₂ x (ih (kept ++ [x]))

theorem fuzzyGo_le (t : ℚ) :
    ∀ (kept l : List RawCoupon) (c : RawCoupon), c ∈ Deduplicator.fuzzyGo t kept l →
      ∀ e ∈ kept, Deduplicator.similarity_score e c ≤ t := by
  intro kept l
  induction l generalizing kept with
  | nil => intro c h; simp [Deduplicator.fuzzyGo] at h
  | cons x rest ih =>
    intro c h
    simp only [Deduplicator.fuzzyGo] at h
    by_cases hx : (kept.any
        (fun existing => Deduplicator.similarity_score existing x > t)) = true
    · rw [if_pos hx] at h
      exact ih kept c h
    · rw [if_neg hx] at h
      rcases List.mem_cons.mp h with rfl | hmem
      · intro e he
        have := fun hgt => hx (List.any_eq_true.mpr ⟨e, he, decide_eq_true hgt⟩)
        exact not_lt.mp this
      · intro e he
        exact ih (kept ++ [x]) c hmem e (List.mem_append_left _ he)

theorem fuzzyGo_pairwise (t : ℚ) :
    ∀ (kept l : List RawCoupon),
      List.Pairwise (fun a b => Deduplicator.similarity_score a b ≤ t)
        (Deduplicator.fuzzyGo t kept l) := by
  intro kept l
  induction l generalizing kept with
  | nil => simp [Deduplicator.fuzzyGo]
  | cons x rest ih =>
    simp only [Deduplicator.fuzzyGo]
    by_cases hx : (kept.any
        (fun existing => Deduplicator.similarity_score existing x > t)) = true
    · rw [if_pos hx]
      exact ih kept
    · rw [if_neg hx]
      refine List.Pairwise.cons ?_ (ih (kept ++ [x]))
      intro b hb
      exact fuzzyGo_le t (kept ++ [x]) rest b hb x
        (List.mem_append_right _ (List.mem_cons_self _ _))

theorem fuzzyGo_eq_self (t : ℚ) :
    ∀ (kept l : List RawCoupon),
      (∀ c ∈ l, ∀ e ∈ kept, Deduplicator.similarity_score e c ≤ t) →
      List.Pairwise (fun a b => Deduplicator.similarity_score a b ≤ t) l →
      Deduplicator.fuzzyGo t kept l = l := by
  intro kept l
  induction l generalizing kept with
  | nil => intro _ _; rfl
  | cons x rest ih =>
    intro hle hp
    simp only [Deduplicator.fuzzyGo]
    have hx : ¬ (kept.any
        (fun existing => Deduplicator.similarity_score existing x > t)) = true := by
      intro hany
      obtain ⟨e, he, hd⟩ := List.any_eq_true.mp hany
      exact absurd (of_decide_eq_true hd) (not_lt.mpr (hle x (List.mem_cons_self _ _) e he))
    rw [if_neg hx]
    congr 1
    refine ih (kept ++ [x]) ?_ (List.Pairwise.of_cons hp)
    intro c hc e he
    rcases List.mem_append.mp he with hek | hex
    · exact hle c (List.mem_cons_of_mem _ hc) e hek
    · rw [List.mem_singleton.mp hex]
      exact (List.pairwise_cons.mp hp).1 c hc

theorem flatMap_congr_mem {α β : Type} (l : List α) (f g : α → List β)
    (h : ∀ a ∈ l, f a = g a) : l.flatMap f = l.flatMap g := by
  induction l with
  | nil => rfl
  | cons x xs ih =>
    simp only [List.flatMap_cons]
    rw [h x (List.mem_cons_self _ _), ih (fun a ha => h a (List.mem_cons_of_mem _ ha))]

theorem dedupAux_congr_seen {α κ : Type} [DecidableEq κ] (f : α → κ) :
    ∀ (seen1 seen2 : List κ) (l : List α),
      (∀ x ∈ l, (f x ∈ seen1 ↔ f x ∈ seen2)) →
      Deduplicator.dedupByKeyAux f seen1 l = Deduplicator.dedupByKeyAux f seen2 l := by
  intro seen1 seen2 l
  induction l generalizing seen1 seen2 with
  | nil => intro _; rfl
  | cons x rest ih =>
    intro h
    simp only [Deduplicator.dedupByKeyAux]
    by_cases h1 : f x ∈ seen1
    · rw [if_pos h1, if_pos ((h x (List.mem_cons_self _ _)).mp h1)]
      exact ih seen1 seen2 (fun y hy => h y (List.mem_cons_of_mem _ hy))
    · rw [if_neg h1, if_neg (fun h2 => h1 ((h x (List.mem_cons_self _ _)).mpr h2))]
      congr 1
      refine ih _ _ (fun y hy => ?_)
      simp only [List.mem_cons]
      exact or_congr Iff.rfl (h y (List.mem_cons_of_mem _ hy))

theorem dedupAux_skip_seen {α κ : Type} [DecidableEq κ] (f : α → κ) :
    ∀ (seen : List κ) (xs rest : List α), (∀ x ∈ xs, f x ∈ seen) →
      Deduplicator.dedupByKeyAux f seen (xs ++ rest) =
        Deduplicator.dedupByKeyAux f seen rest := by
  intro seen xs rest
  induction xs with
  | nil => intro _; rfl
  | cons x xs' ih =>
    intro h
    simp only [List.cons_append, Deduplicator.dedupByKeyAux]
    rw [if_pos (h x (List.mem_cons_self _ _))]
    exact ih (fun y hy => h y (List.mem_cons_of_mem _ hy))

theorem merchantKeys_nodup (l : List RawCoupon) :
    (Deduplicator.merchantKeys l).Nodup := by
  have h := dedupAux_map_nodup (id : List Char → List Char) []
    (l.map (·.merchant_domain))
  simpa using h

theorem merchantKeys_subset (l : List RawCoupon) :
    ∀ k ∈ Deduplicator.merchantKeys l, k ∈ l.map (·.merchant_domain) :=
  fun _ hk => (dedupAux_sublist id [] _).subset hk

theorem merchantKeys_block (k : List Char) :
    ∀ (a b : List RawCoupon), a ≠ [] → (∀ x ∈ a, x.merchant_domain = k) →
      (∀ x ∈ b, x.merchant_domain ≠ k) →
      Deduplicator.merchantKeys (a ++ b) = k :: Deduplicator.merchantKeys b := by
  intro a b ha hma hmb
  unfold Deduplicator.merchantKeys
  rw [List.map_append]
  cases a with
  | nil => exact absurd rfl ha
  | cons a0 a' =>
    rw [List.map_cons,
      show a0.merchant_domain = k from hma a0 (List.mem_cons_self _ _),
      List.cons_append]
    simp only [Deduplicator.dedupByKeyAux, id_eq]
    rw [if_neg (List.not_mem_nil k)]
    congr 1
    rw [dedupAux_skip_seen id [k] (a'.map (·.merchant_domain)) (b.map (·.merchant_domain))
      (by
        intro y hy
        obtain ⟨x, hx, rfl⟩ := List.mem_map.mp hy
        simp [hma x (List.mem_cons_of_mem _ hx)])]
    refine dedupAux_congr_seen id [k] [] (b.map (·.merchant_domain)) ?_
    intro y hy
    obtain ⟨x, hx, rfl⟩ := List.mem_map.mp hy
    simp [hmb x hx]

theorem filter_flatMapGroups (g : List Char → List RawCoupon) :
    ∀ ks : List (List Char), ks.Nodup →
      (∀ k ∈ ks, ∀ x ∈ g k, x.merchant_domain = k) →
      ∀ k : List Char,
        (ks.flatMap g).filter (fun c => decide (c.merchant_domain = k)) =
          if k ∈ ks then g k else [] := by
  intro ks
  induction ks with
  | nil => intro _ _ k; simp
  | cons k0 ks' ih =>
    intro hnd hg k
    rw [List.flatMap_cons, List.filter_append]
    have ihk := ih (List.Nodup.of_cons hnd)
      (fun k' hk' x hx => hg k' (List.mem_cons_of_mem _ hk') x hx) k
    by_cases hk : k0 = k
    · subst hk
      rw [List.filter_eq_self.mpr
        (fun x hx => decide_eq_true (hg k0 (List.mem_cons_self _ _) x hx))]
      rw [ihk, if_neg (List.nodup_cons.mp hnd).1, if_pos (List.mem_cons_self _ _)]
      simp
    · have h0 : (g k0).filter (fun c => decide (c.merchant_domain = k)) = [] := by
        rw [List.filter_eq_nil_iff]
        intro x hx
        simp only [decide_eq_true_eq]
        rw [hg k0 (List.mem_cons_self _ _) x hx]
        exact hk
      rw [h0, List.nil_append, ihk]
      by_cases hk2 : k ∈ ks'
      · rw [if_pos hk2, if_pos (List.mem_cons_of_mem _ hk2)]
      · rw [if_neg hk2, if_neg ?_]
        intro hmem
        rcases List.mem_cons.mp hmem with h | h
        · exact hk h.symm
        · exact hk2 h

theorem flatMapGroups_cmKey_nodup (g : List Char → List RawCoupon) :
    ∀ ks : List (List Char), ks.Nodup →
      (∀ k ∈ ks, ∀ x ∈ g k, x.merchant_domain = k) →
      (∀ k ∈ ks, ((g k).map Deduplicator.cmKey).Nodup) →
      ((ks.flatMap g).map Deduplicator.cmKey).Nodup := by
  intro ks
  induction ks with
  | nil => intro _ _ _; simp
  | cons k0 ks' ih =>
    intro hnd hg hn
    rw [List.flatMap_cons, List.map_append, List.nodup_append]
    refine ⟨hn k0 (List.mem_cons_self _ _),
      ih (List.Nodup.of_cons hnd)
        (fun k' hk' x hx => hg k' (List.mem_cons_of_mem _ hk') x hx)
        (fun k' hk' => hn k' (List.mem_cons_of_mem _ hk')), ?_⟩
    intro a ha hb
    obtain ⟨x, hx, rfl⟩ := List.mem_map.mp ha
    obtain ⟨y, hy, hxy⟩ := List.mem_map.mp hb
    obtain ⟨k', hk', hy'⟩ := List.mem_flatMap.mp hy
    have h1 : x.merchant_domain = k0 := hg k0 (List.mem_cons_self _ _) x hx
    have h2 : y.merchant_domain = k' := hg k' (List.mem_cons_of_mem _ hk') y hy'
    have h3 : y.merchant_domain = x.merchant_domain :=
      congrArg Prod.snd hxy
    exact (List.nodup_cons.mp hnd).1 (h1 ▸ h3 ▸ h2 ▸ hk')

theorem regroup_eq_self (g : List Char → List RawCoupon) :
    ∀ ks : List (List Char), ks.Nodup →
      (∀ k ∈ ks, ∀ x ∈ g k, x.merchant_domain = k) →
      ∀ q : List RawCoupon, q <+ ks.flatMap g →
        (Deduplicator.merchantKeys q).flatMap
          (fun k => q.filter (fun c => decide (c.merchant_domain = k))) = q := by
  intro ks
  induction ks with
  | nil =>
    intro _ _ q hq
    have hq' : q = [] := List.sublist_nil.mp (by simpa using hq)
    subst hq'
    rfl
  | cons k ks' ih =>
    intro hnd hg q hq
    rw [List.flatMap_cons] at hq
    obtain ⟨a, b, rfl, ha, hb⟩ := List.sublist_append_iff.mp hq
    have hma : ∀ x ∈ a, x.merchant_domain = k :=
      fun x hx => hg k (List.mem_cons_self _ _) x (ha.subset hx)
    have hmb : ∀ x ∈ b, x.merchant_domain ∈ ks' ∧ x.merchant_domain ≠ k := by
      intro x hx
      obtain ⟨k', hk', hx'⟩ := List.mem_flatMap.mp (hb.subset hx)
      have := hg k' (List.mem_cons_of_mem _ hk') x hx'
      exact ⟨this ▸ hk', fun he => (List.nodup_cons.mp hnd).1 (he ▸ this ▸ hk')⟩
    have ihb := ih (List.Nodup.of_cons hnd)
      (fun k' hk' x hx => hg k' (List.mem_cons_of_mem _ hk') x hx) b hb
    cases a with
    | nil => simpa using ihb
    | cons a0 a' =>
      rw [merchantKeys_block k (a0 :: a') b (by simp) hma (fun x hx => (hmb x hx).2)]
      rw [List.flatMap_cons]
      have hfa : ((a0 :: a') ++ b).filter (fun c => decide (c.merchant_domain = k)) =
          a0 :: a' := by
        rw [List.filter_append,
          List.filter_eq_self.mpr (fun x hx => decide_eq_true (hma x hx)),
          List.filter_eq_nil_iff.mpr
            (fun x hx => by simp only [decide_eq_true_eq]; exact (hmb x hx).2),
          List.append_nil]
      rw [hfa]
      have hcongr : (Deduplicator.merchantKeys b).flatMap
            (fun k' => ((a0 :: a') ++ b).filter (fun c => decide (c.merchant_domain = k'))) =
          (Deduplicator.merchantKeys b).flatMap
            (fun k' => b.filter (fun c => decide (c.merchant_domain = k'))) := by
        refine flatMap_congr_mem _ _ _ ?_
        intro k' hk'
        have hk'b : k' ≠ k := by
          obtain ⟨y, hy, rfl⟩ := List.mem_map.mp (merchantKeys_subset b k' hk')
          exact (hmb y hy).2
        rw [List.filter_append,
          List.filter_eq_nil_iff.mpr (fun x hx => by
            simp only [decide_eq_true_eq]
            rw [hma x hx]
            exact fun he => hk'b he.symm),
          List.nil_append]
      rw [hcongr, ihb]

theorem combined_pipeline_idem :
    ∀ l1 : List RawCoupon, (l1.map Deduplicator.cmKey).Nodup →
      Deduplicator.deduplicate_combined
          (Deduplicator.deduplicate_by_hash (Deduplicator.combinedSecondPass l1)) =
        Deduplicator.deduplicate_by_hash (Deduplicator.combinedSecondPass l1) := by
  intro l1 hl1_nodup
  have hks_nodup : (Deduplicator.merchantKeys l1).Nodup := merchantKeys_nodup l1
  have hg_homog : ∀ k ∈ Deduplicator.merchantKeys l1,
      ∀ x ∈ Deduplicator.deduplicate_fuzzy
        (l1.filter (fun c => decide (c.merchant_domain = k))) (F64.round (85 / 100)),
        x.merchant_domain = k := by
    intro k _ x hx
    have hx' := (fuzzyGo_sublist _ [] _).subset hx
    simpa using (List.mem_filter.mp hx').2
  have hg_sub : ∀ k : List Char,
      Deduplicator.deduplicate_fuzzy
        (l1.filter (fun c => decide (c.merchant_domain = k))) (F64.round (85 / 100)) <+ l1 :=
    fun k => (fuzzyGo_sublist _ [] _).trans (List.filter_sublist _)
  have hZ_nodup : ((Deduplicator.combinedSecondPass l1).map Deduplicator.cmKey).Nodup := by
    refine flatMapGroups_cmKey_nodup _ _ hks_nodup hg_homog ?_
    intro k _
    exact List.Nodup.sublist ((hg_sub k).map _) hl1_nodup
  have hY_sub : Deduplicator.deduplicate_by_hash (Deduplicator.combinedSecondPass l1) <+
      Deduplicator.combinedSecondPass l1 := dedupAux_sublist _ [] _
  have hY_cm_nodup :
      ((Deduplicator.deduplicate_by_hash (Deduplicator.combinedSecondPass l1)).map
        Deduplicator.cmKey).Nodup :=
    List.Nodup.sublist (hY_sub.map _) hZ_nodup
  have h1 : Deduplicator.deduplicate_by_code_and_merchant
      (Deduplicator.deduplicate_by_hash (Deduplicator.combinedSecondPass l1)) =
      Deduplicator.deduplicate_by_hash (Deduplicator.combinedSecondPass l1) :=
    dedupAux_eq_self _ [] _ (fun c _ => List.not_mem_nil _) hY_cm_nodup
  have h2a : ∀ k : List Char, Deduplicator.deduplicate_fuzzy
      ((Deduplicator.deduplicate_by_hash (Deduplicator.combinedSecondPass l1)).filter
        (fun c => decide (c.merchant_domain = k))) (F64.round (85 / 100)) =
      (Deduplicator.deduplicate_by_hash (Deduplicator.combinedSecondPass l1)).filter
        (fun c => decide (c.merchant_domain = k)) := by
    intro k
    refine fuzzyGo_eq_self _ [] _ (fun c _ e he => absurd he (List.not_mem_nil e)) ?_
    have hsub := hY_sub.filter (fun c => decide (c.merchant_domain = k))
    rw [show (Deduplicator.combinedSecondPass l1).filter
        (fun c => decide (c.merchant_domain = k)) =
        if k ∈ Deduplicator.merchantKeys l1 then
          Deduplicator.deduplicate_fuzzy
            (l1.filter (fun c => decide (c.merchant_domain = k))) (F64.round (85 / 100))
        else [] from filter_flatMapGroups _ _ hks_nodup hg_homog k] at hsub
    by_cases hkin : k ∈ Deduplicator.merchantKeys l1
    · rw [if_pos hkin] at hsub
      exact List.Pairwise.sublist hsub (fuzzyGo_pairwise _ [] _)
    · rw [if_neg hkin] at hsub
      rw [List.sublist_nil.mp hsub]
      exact List.Pairwise.nil
  have h2 : Deduplicator.combinedSecondPass
      (Deduplicator.deduplicate_by_hash (Deduplicator.combinedSecondPass l1)) =
      Deduplicator.deduplicate_by_hash (Deduplicator.combinedSecondPass l1) := by
    have hstep := flatMap_congr_mem
      (Deduplicator.merchantKeys
        (Deduplicator.deduplicate_by_hash (Deduplicator.combinedSecondPass l1)))
      (fun k => Deduplicator.deduplicate_fuzzy
        ((Deduplicator.deduplicate_by_hash (Deduplicator.combinedSecondPass l1)).filter
          (fun c => decide (c.merchant_domain = k))) (F64.round (85 / 100)))
      (fun k => (Deduplicator.deduplicate_by_hash
        (Deduplicator.combinedSecondPass l1)).filter
          (fun c => decide (c.merchant_domain = k)))
      (fun k _ => h2a k)
    exact hstep.trans (regroup_eq_self _ _ hks_nodup hg_homog _ hY_sub)
  have h3 : Deduplicator.deduplicate_by_hash
      (Deduplicator.deduplicate_by_hash (Deduplicator.combinedSecondPass l1)) =
      Deduplicator.deduplicate_by_hash (Deduplicator.combinedSecondPass l1) :=
    dedupAux_eq_self _ [] _ (fun c _ => List.not_mem_nil _) (dedupAux_map_nodup _ [] _)
  show Deduplicator.deduplicate_by_hash (Deduplicator.combinedSecondPass
      (Deduplicator.deduplicate_by_code_and_merchant
        (Deduplicator.deduplicate_by_hash (Deduplicator.combinedSecondPass l1)))) = _
  rw [h1, h2, h3]

/-- C4: each of the four deduplication strategies is idempotent — running
`deduplicate` a second time on its own output returns it unchanged (for the
combined strategy, under the deterministic first-occurrence rendering of the
per-merchant `HashMap` grouping fixed in `merchantKeys`). -/
theorem C4_deduplicate_idempotent :
    ∀ (strategy : Deduplicator.DeduplicationStrategy) (l : List RawCoupon),
      Deduplicator.deduplicate strategy (Deduplicator.deduplicate strategy l) =
        Deduplicator.deduplicate strategy l := by
  intro strategy l
  cases strategy with
  | CodeAndMerchant => exact dedupAux_idem _ l
  | HashBased => exact dedupAux_idem _ l
  | Fuzzy threshold =>
    exact fuzzyGo_eq_self threshold [] _
      (fun c _ e he => absurd he (List.not_mem_nil e)) (fuzzyGo_pairwise threshold [] l)
  | Combined =>
    exact combined_pipeline_idem (Deduplicator.deduplicate_by_code_and_merchant l)
      (dedupAux_map_nodup _ [] l)

theorem markSuccessList_urls (url : List Char) :
    ∀ l : List ProxyManager.ProxyState,
      (ProxyManager.markSuccessList url l).map (fun p => p.config.url) =
        l.map (fun p => p.config.url) := by
  intro l
  induction l with
  | nil => rfl
  | cons p rest ih =>
    simp only [ProxyManager.markSuccessList]
    by_cases h : p.config.url = url
    · rw [if_pos h]
      simp
    · rw [if_neg h]
      simp [ih]

theorem markFailureList_urls (max_failures : Nat) (reason : List Char) (now : Nat)
    (url : List Char) :
    ∀ l : List ProxyManager.ProxyState,
      ((ProxyManager.markFailureList max_failures reason now url l).1.map
          (fun p => p.config.url) ++
        (ProxyManager.markFailureList max_failures reason now url l).2.map
          (fun f => f.config.url)) ~ l.map (fun p => p.config.url) := by
  intro l
  induction l with
  | nil => simp [ProxyManager.markFailureList]
  | cons p rest ih =>
    simp only [ProxyManager.markFailureList]
    by_cases h : p.config.url = url
    · rw [if_pos h]
      by_cases h2 : p.failure_count + 1 ≥ max_failures
      · rw [if_pos h2]
        simpa using List.perm_append_singleton _ _
      · rw [if_neg h2]
        simp
    · rw [if_neg h]
      simpa using List.Perm.cons p.config.url ih

theorem markFailureList_failed_spec (max_failures : Nat) (reason : List Char)
    (now : Nat) (url : List Char) :
    ∀ l : List ProxyManager.ProxyState,
      (ProxyManager.markFailureList max_failures reason now url l).2 =
        match l.find? (fun p => decide (p.config.url = url)) with
        | some p => if p.failure_count + 1 ≥ max_failures then
            [⟨p.config, now, reason⟩] else []
        | none => [] := by
  intro l
  induction l with
  | nil => rfl
  | cons p rest ih =>
    simp only [ProxyManager.markFailureList]
    by_cases h : p.config.url = url
    · have hfind : List.find? (fun x => decide (x.config.url = url)) (p :: rest) =
          some p := List.find?_cons_of_pos _ (decide_eq_true h)
      rw [if_pos h, hfind]
      by_cases h2 : p.failure_count + 1 ≥ max_failures
      · simp [h2]
      · simp [h2]
    · have hfind : List.find? (fun x => decide (x.config.url = url)) (p :: rest) =
          List.find? (fun x => decide (x.config.url = url)) rest :=
        List.find?_cons_of_neg _ (by simpa using h)
      rw [if_neg h, hfind]
      exact ih

theorem selectGo_urls (cfg : ProxyManager.ProxyManagerConfig) (now : Nat) :
    ∀ (fuel : Nat) (q : List ProxyManager.ProxyState) (c : ProxyManager.ProxyConfig)
      (q' : List ProxyManager.ProxyState),
      ProxyManager.selectGo cfg now fuel q = some (c, q') →
        q'.map (fun p => p.config.url) ~ q.map (fun p => p.config.url) := by
  intro fuel
  induction fuel with
  | zero =>
    intro q c q' h
    cases q with
    | nil => simp [ProxyManager.selectGo] at h
    | cons p rest =>
      simp only [ProxyManager.selectGo, Option.some.injEq, Prod.mk.injEq] at h
      rw [← h.2]
      simpa using List.perm_append_singleton _ _
  | succ n ih =>
    intro q c q' h
    cases q with
    | nil => simp [ProxyManager.selectGo] at h
    | cons p rest =>
      simp only [ProxyManager.selectGo] at h
      by_cases hu : (match p.last_used with
          | none => true
          | some last_used => decide (now - last_used ≥ cfg.rotation_interval)) = true
      · rw [if_pos hu] at h
        simp only [Option.some.injEq, Prod.mk.injEq] at h
        rw [← h.2]
        simpa using List.perm_append_singleton _ _
      · rw [if_neg hu] at h
        refine (ih _ c q' h).trans ?_
        simpa using List.perm_append_singleton _ _

theorem recover_urls (cfg : ProxyManager.ProxyManagerConfig)
    (s : ProxyManager.PMState) (now : Nat) :
    ((ProxyManager.recover_failed_proxies cfg s now).proxies.map (fun p => p.config.url) ++
      (ProxyManager.recover_failed_proxies cfg s now).failed.map (fun f => f.config.url)) ~
    (s.proxies.map (fun p => p.config.url) ++ s.failed.map (fun f => f.config.url)) := by
  simp only [ProxyManager.recover_failed_proxies, List.map_append, List.map_map]
  rw [List.append_assoc]
  refine List.Perm.append_left _ ?_
  have h := List.filter_append_perm (ProxyManager.dueForRetry cfg now) s.failed
  have h2 := h.map (fun f => f.config.url)
  simpa using h2

theorem recover_allUrls (cfg : ProxyManager.ProxyManagerConfig)
    (s : ProxyManager.PMState) (now : Nat) :
    ProxyManager.allUrls (ProxyManager.recover_failed_proxies cfg s now) =
      ProxyManager.allUrls s := by
  simp only [ProxyManager.allUrls]
  rw [Multiset.coe_add, Multiset.coe_add, Multiset.coe_eq_coe]
  exact recover_urls cfg s now

/-- C8: the proxy-pool invariants.  The combined multiset of proxy identities
over the active queue and the quarantine list is preserved by `next_proxy`,
`mark_success`, `mark_failure` and recovery, and extended by exactly the new
url on `add_proxy` — so every entry is in exactly one of the two collections
after every operation.  `mark_failure` appends an entry to quarantine (with
`failed_at = now` and the reason) exactly when the first url match exists and
its incremented `failure_count` reaches `max_failures`; recovery moves back,
at the queue tail with zeroed counters, exactly the quarantined entries with
`now − failed_at ≥ retry_after`. -/
theorem C8_proxy_pool_invariants :
    (∀ (s : ProxyManager.PMState) (cfg : ProxyManager.ProxyConfig),
      ProxyManager.allUrls (ProxyManager.add_proxy s cfg) =
        ProxyManager.allUrls s + {cfg.url}) ∧
    (∀ (s : ProxyManager.PMState) (url : List Char),
      ProxyManager.allUrls (ProxyManager.mark_success s url) =
        ProxyManager.allUrls s) ∧
    (∀ (pmc : ProxyManager.ProxyManagerConfig) (s : ProxyManager.PMState)
      (url reason : List Char) (now : Nat),
      ProxyManager.allUrls (ProxyManager.mark_failure pmc s url reason now) =
        ProxyManager.allUrls s) ∧
    (∀ (pmc : ProxyManager.ProxyManagerConfig) (s : ProxyManager.PMState) (now : Nat),
      ProxyManager.allUrls (ProxyManager.recover_failed_proxies pmc s now) =
        ProxyManager.allUrls s) ∧
    (∀ (pmc : ProxyManager.ProxyManagerConfig) (s : ProxyManager.PMState) (now : Nat),
      ProxyManager.allUrls (ProxyManager.get_next_proxy pmc s now).2 =
        ProxyManager.allUrls s) ∧
    (∀ (pmc : ProxyManager.ProxyManagerConfig) (s : ProxyManager.PMState)
      (url reason : List Char) (now : Nat),
      (ProxyManager.mark_failure pmc s url reason now).failed = s.failed ++
        (match s.proxies.find? (fun p => decide (p.config.url = url)) with
          | some p => if p.failure_count + 1 ≥ pmc.max_failures then
              [⟨p.config, now, reason⟩] else []
          | none => [])) ∧
    (∀ (pmc : ProxyManager.ProxyManagerConfig) (s : ProxyManager.PMState) (now : Nat),
      (ProxyManager.recover_failed_proxies pmc s now).proxies =
        s.proxies ++ (s.failed.filter (ProxyManager.dueForRetry pmc now)).map
          (fun f => ⟨f.config, none, 0, 0⟩) ∧
      (ProxyManager.recover_failed_proxies pmc s now).failed =
        s.failed.filter (fun f => !ProxyManager.dueForRetry pmc now f)) := by
  refine ⟨?_, ?_, ?_, recover_allUrls, ?_, ?_, fun pmc s now => ⟨rfl, rfl⟩⟩
  · intro s cfg
    simp only [ProxyManager.allUrls, ProxyManager.add_proxy, List.map_append,
      List.map_cons, List.map_nil]
    rw [← Multiset.coe_add, Multiset.coe_singleton]
    exact add_right_comm _ _ _
  · intro s url
    simp only [ProxyManager.allUrls, ProxyManager.mark_success]
    rw [markSuccessList_urls]
  · intro pmc s url reason now
    simp only [ProxyManager.allUrls, ProxyManager.mark_failure, List.map_append]
    rw [Multiset.coe_add, Multiset.coe_add, Multiset.coe_eq_coe, ← List.append_assoc]
    calc ((ProxyManager.markFailureList pmc.max_failures reason now url s.proxies).1.map
            (fun p => p.config.url) ++ s.failed.map (fun f => f.config.url)) ++
          (ProxyManager.markFailureList pmc.max_failures reason now url s.proxies).2.map
            (fun f => f.config.url)
        ~ ((ProxyManager.markFailureList pmc.max_failures reason now url s.proxies).1.map
            (fun p => p.config.url) ++
          (ProxyManager.markFailureList pmc.max_failures reason now url s.proxies).2.map
            (fun f => f.config.url)) ++ s.failed.map (fun f => f.config.url) := by
          rw [List.append_assoc, List.append_assoc]
          exact List.Perm.append_left _ List.perm_append_comm
      _ ~ s.proxies.map (fun p => p.config.url) ++ s.failed.map (fun f => f.config.url) :=
          (markFailureList_urls pmc.max_failures reason now url s.proxies).append_right _
  · intro pmc s now
    simp only [ProxyManager.get_next_proxy]
    by_cases he : (ProxyManager.recover_failed_proxies pmc s now).proxies.isEmpty = true
    · rw [if_pos he]
      exact recover_allUrls pmc s now
    · rw [if_neg he]
      rcases hsel : ProxyManager.selectGo pmc now
          (ProxyManager.recover_failed_proxies pmc s now).proxies.length
          (ProxyManager.recover_failed_proxies pmc s now).proxies with _ | ⟨c, q⟩
      · simp only [hsel]
        exact recover_allUrls pmc s now
      · simp only [hsel]
        have hq := selectGo_urls pmc now _ _ c q hsel
        have : ProxyManager.allUrls
            ⟨q, (ProxyManager.recover_failed_proxies pmc s now).failed⟩ =
            ProxyManager.allUrls (ProxyManager.recover_failed_proxies pmc s now) := by
          simp only [ProxyManager.allUrls]
          rw [Multiset.coe_eq_coe.mpr hq]
        exact this.trans (recover_allUrls pmc s now)
  · intro pmc s url reason now
    simp only [ProxyManager.mark_failure]
    rw [markFailureList_failed_spec]
